import Mathlib

/-!
# Verification of the olive-analytics invoice-processing pipeline

Shallow embedding of the worker core of `remoteree/olive-analytics`
(`src/backend/src/worker/processor.ts` and the collaborator services it
calls), together with theorems settling the frozen claims about the
natural-language specification.

Modelling conventions:
* the Mongo collection of `Invoice` documents is a `List Invoice`;
* timestamps are milliseconds as `Nat`;
* money amounts are exact rationals `ℚ`;
* external I/O (Google Drive, S3, OCR, OpenAI, Perplexity) is injected
  through an `Env` record of collaborator outcomes, mirroring the
  constructor-injection abstraction the specification prescribes for the
  global collaborator singletons;
* a thrown JavaScript error is an `Except.error` carrying the message.
-/

namespace Olive

/-! ## Data model (src/backend/src/models/Invoice.ts) -/

/-- `InvoiceStatus` — `'queued' | 'processing' | 'processed' | 'failed'`. -/
inductive InvoiceStatus where
  | queued
  | processing
  | processed
  | failed
deriving DecidableEq, Repr

/-- `ITotals` — `{subtotal, tax, shipping, total}`. -/
structure Totals where
  subtotal : ℚ
  tax : ℚ
  shipping : ℚ
  total : ℚ
deriving DecidableEq, Repr

/-- `ILineItem`. -/
structure LineItem where
  description : String
  sku : Option String := none
  mpn : Option String := none
  quantity : ℚ
  unitPrice : ℚ
  total : ℚ
  confidence : Option ℚ := none
deriving DecidableEq, Repr

/-- `purchaseType` enum of `IContext`. -/
inductive PurchaseType where
  | routine
  | rush
  | specialty
deriving DecidableEq, Repr

/-- `constraints` sub-object of `IContext`; each flag is optional. -/
structure Constraints where
  speed : Option Bool := none
  availability : Option Bool := none
  relationship : Option Bool := none
deriving DecidableEq, Repr

/-- `ContextClassificationResult` (src/backend/src/services/llm.ts). -/
structure ContextClassificationResult where
  purchaseType : PurchaseType
  constraints : Constraints
  confidence : ℚ
  explanation : String
deriving DecidableEq, Repr

/-- `ITrendAnalysis`.  `volatility` is a real number because the code
computes `Math.sqrt` of the variance, which is irrational in general. -/
structure TrendAnalysisResult where
  priceChange : Option ℚ := none
  priceChangePercent : Option ℚ := none
  volatility : Option ℝ := none
  anomalies : Option (List String) := none

/-- `SavingsRange` — `{min, max}`. -/
structure SavingsRange where
  min : ℚ
  max : ℚ
deriving DecidableEq, Repr

/-- `SavingsRecommendation` (src/backend/src/services/perplexity.ts), in its
runtime shape: the object comes from parsing free-form JSON returned by the
Perplexity service, so every field may be absent at runtime; `none` models a
missing (or, for `confidence`, non-numeric) field. -/
structure SavingsRecommendation where
  type : Option String := none
  title : Option String := none
  description : Option String := none
  potentialSavings : Option ℚ := none
  savingsRange : Option SavingsRange := none
  savingsPercentRange : Option SavingsRange := none
  confidence : Option ℚ := none
  evidence : List String := []
  actionSteps : Option (List String) := none
  estimatedTimeToImplement : Option String := none
deriving DecidableEq, Repr

/-- `IProcessing` — the checkpoint/lease sub-record, with the schema
defaults `stage: 'queued'`, `attempts: 0`. -/
structure ProcessingInfo where
  stage : String := "queued"
  attempts : Nat := 0
  lockedAt : Option Nat := none
  lastError : Option String := none
deriving DecidableEq, Repr

/-- `IInvoice` — the Job record.  Mongo `_id`s are modelled as `Nat`. -/
structure Invoice where
  id : Nat
  shopId : String
  supplierId : Option Nat := none
  status : InvoiceStatus := .queued
  driveFileId : Option String := none
  driveUrl : Option String := none
  originalS3Key : Option String := none
  processedS3Key : Option String := none
  hashSha256 : Option String := none
  invoiceNumber : Option String := none
  invoiceDate : Option Nat := none
  totals : Option Totals := none
  lineItems : List LineItem := []
  context : Option ContextClassificationResult := none
  trendAnalysis : Option TrendAnalysisResult := none
  recommendations : List SavingsRecommendation := []
  processing : ProcessingInfo := {}
  createdAt : Nat := 0

/-! ## Constants (src/backend/src/worker/processor.ts lines 12-13) -/

def MAX_RETRY_ATTEMPTS : Nat := 3

def STUCK_INVOICE_TIMEOUT_MS : Nat := 30 * 60 * 1000

/-! ## Store primitives

`invoice.save()` rewrites the document with the same `_id`. -/

/-- `invoice.save()` — whole-document rewrite keyed by `_id`. -/
def saveInvoice (inv : Invoice) (st : List Invoice) : List Invoice :=
  st.map (fun j => if j.id = inv.id then inv else j)

/-! ## Lease manager (processor.ts lines 98-152) -/

/-- `new Date(Date.now() - STUCK_INVOICE_TIMEOUT_MS)` — the staleness
threshold used by the stuck-invoice sweep. -/
def stuckThreshold (now : Nat) : Nat := now - STUCK_INVOICE_TIMEOUT_MS

/-- The Mongo query `{status: 'processing', 'processing.lockedAt': {$lt: threshold}}`:
a job is stuck when it is `processing` and holds a lease strictly older
than the threshold (a missing `lockedAt` never matches `$lt`). -/
def isStuck (now : Nat) (inv : Invoice) : Bool :=
  decide (inv.status = .processing) &&
    match inv.processing.lockedAt with
    | some t => decide (t < stuckThreshold now)
    | none => false

/-- `Math.round((now - lockedAt) / 1000 / 60)` on a non-negative
millisecond count: minutes, rounded half-up. -/
def minutesRounded (ms : Nat) : Nat := (ms + 30000) / 60000

/-- The synthetic `lastError` note written by the sweep
(processor.ts line 145). -/
def stuckMessage (now t : Nat) : String :=
  "Invoice was stuck in processing for " ++ toString (minutesRounded (now - t)) ++
    " minutes. Automatically unlocked."

/-- The per-invoice reset performed by `unlockStuckInvoices`
(processor.ts lines 142-147): back to `queued`, stage `queued`, lease
cleared, synthetic note recorded, then saved. -/
def unlockInvoice (now : Nat) (inv : Invoice) : Invoice :=
  match inv.processing.lockedAt with
  | some t =>
      { inv with
        status := .queued
        processing :=
          { inv.processing with
            stage := "queued"
            lockedAt := none
            lastError := some (stuckMessage now t) } }
  | none => inv

/-- `unlockStuckInvoices` (processor.ts lines 127-152): every stuck
invoice is reset and persisted; all other documents are untouched. -/
def unlockStuckInvoices (now : Nat) (st : List Invoice) : List Invoice :=
  st.map (fun inv => if isStuck now inv then unlockInvoice now inv else inv)

/-- The eligibility filter of the atomic claim
(`{status: 'queued', 'processing.attempts': {$lt: MAX_RETRY_ATTEMPTS}}`). -/
def eligible (inv : Invoice) : Bool :=
  decide (inv.status = .queued) && decide (inv.processing.attempts < MAX_RETRY_ATTEMPTS)

/-- The `$set` part of the claim: `status=processing`,
`processing.stage='acquired'`, `processing.lockedAt=now`. -/
def claimUpdate (now : Nat) (inv : Invoice) : Invoice :=
  { inv with
    status := .processing
    processing := { inv.processing with stage := "acquired", lockedAt := some now } }

/-- Minimum of a list of naturals, `none` on the empty list. -/
def olistMin : List Nat → Option Nat
  | [] => none
  | x :: xs =>
      match olistMin xs with
      | none => some x
      | some m => some (if x ≤ m then x else m)

/-- Index of the first element satisfying `p`. -/
def firstIdxWhere (p : Invoice → Bool) : List Invoice → Option Nat
  | [] => none
  | x :: xs => if p x then some 0 else (firstIdxWhere p xs).map (· + 1)

/-- The document selected by `findOneAndUpdate(..., sort: {createdAt: 1})`:
the first (in natural order) eligible invoice whose `createdAt` is minimal
among eligible invoices — oldest first.  Returns its index. -/
def findOldestEligible (st : List Invoice) : Option Nat :=
  match olistMin ((st.filter eligible).map (fun inv => inv.createdAt)) with
  | none => none
  | some m => firstIdxWhere (fun inv => eligible inv && decide (inv.createdAt = m)) st

/-- `acquireAndLockInvoice` (processor.ts lines 98-122): sweep stale
leases, then a single atomic find-and-update claiming the oldest eligible
invoice.  Returns the updated document (with `new: true`) and the
resulting store. -/
def acquireAndLockInvoice (now : Nat) (st : List Invoice) : Option Invoice × List Invoice :=
  match findOldestEligible (unlockStuckInvoices now st) with
  | none => (none, unlockStuckInvoices now st)
  | some i =>
      match (unlockStuckInvoices now st)[i]? with
      | none => (none, unlockStuckInvoices now st)
      | some inv =>
          (some (claimUpdate now inv),
            (unlockStuckInvoices now st).set i (claimUpdate now inv))

/-! ## Classification collaborator (src/backend/src/services/llm.ts)

`classifyPurchaseContext` wraps the whole OpenAI round-trip (client
creation, chat completion, JSON-extraction cascade) in one `try`; any
throw falls to the `catch`, which returns a fixed default.  The outcome of
the `try` block — network plus parsing — is abstracted as an
`Except String ContextClassificationResult` input. -/

/-- The default classification returned by the `catch` branch
(llm.ts lines 216-221). -/
def defaultClassification : ContextClassificationResult :=
  { purchaseType := .routine
    constraints := {}
    confidence := 1/2
    explanation := "Classification failed, defaulting to routine" }

/-- `classifyPurchaseContext` (llm.ts lines 119-223): never throws — the
`catch` degrades every internal failure to `defaultClassification`. -/
def classifyPurchaseContext
    (attempt : Except String ContextClassificationResult) : ContextClassificationResult :=
  match attempt with
  | .ok r => r
  | .error _ => defaultClassification

/-! ## Recommendation collaborator (src/backend/src/services/perplexity.ts)

`generateSavingsRecommendations` calls the Perplexity chat API and parses
a free-text JSON response.  The network round-trip plus `JSON.parse` is
abstracted as a `PerplexityResponse` input. -/

/-- Outcome of the Perplexity request + `JSON.parse` step:
* `requestFailed` — the axios call threw, or `content` was empty and
  `throw new Error('No response from Perplexity')` fired (both land in
  the outer `catch`);
* `unparsable` — `JSON.parse` threw (inner catch, perplexity.ts line 251);
* `single` — the parse produced a non-array value (wrapped in an array,
  line 257);
* `arrayOf` — the parse produced an array of records. -/
inductive PerplexityResponse where
  | requestFailed (msg : String)
  | unparsable
  | single (r : SavingsRecommendation)
  | arrayOf (rs : List SavingsRecommendation)
deriving DecidableEq, Repr

/-- JavaScript truthiness of an optional string field
(`rec.type && rec.title && rec.description`): absent and `""` are falsy. -/
def truthyStr : Option String → Bool
  | none => false
  | some s => !(decide (s = ""))

/-- JavaScript falsiness of an optional numeric field
(`!rec.potentialSavings`): absent and `0` are falsy. -/
def jsFalsyNum : Option ℚ → Bool
  | none => true
  | some q => decide (q = 0)

/-- The per-record normalisation of perplexity.ts lines 269-283: default
`actionSteps` to `[]`, backfill the legacy `potentialSavings` from the
midpoint of `savingsRange`, default a non-numeric `confidence` to `0.5`. -/
def fixRecommendation (r : SavingsRecommendation) : SavingsRecommendation :=
  let r1 :=
    match r.actionSteps with
    | some _ => r
    | none => { r with actionSteps := some [] }
  let r2 :=
    if jsFalsyNum r1.potentialSavings then
      match r1.savingsRange with
      | some sr => { r1 with potentialSavings := some ((sr.min + sr.max) / 2) }
      | none => r1
    else r1
  match r2.confidence with
  | some _ => r2
  | none => { r2 with confidence := some (1/2) }

/-- The filter + map validation of perplexity.ts lines 261-283. -/
def validateRecommendations (rs : List SavingsRecommendation) : List SavingsRecommendation :=
  (rs.filter (fun r => truthyStr r.type && truthyStr r.title && truthyStr r.description)).map
    fixRecommendation

/-- `generateSavingsRecommendations` (perplexity.ts lines 149-293): empty
list when the API key is missing, when the request throws, or when the
response cannot be parsed; otherwise the validated parsed records.
Never throws. -/
def generateSavingsRecommendations (apiKey : Option String)
    (resp : PerplexityResponse) : List SavingsRecommendation :=
  match apiKey with
  | none => []
  | some _ =>
      match resp with
      | .requestFailed _ => []
      | .unparsable => []
      | .single r => validateRecommendations [r]
      | .arrayOf rs => validateRecommendations rs

/-! ## Trend analysis collaborator (src/backend/src/services/trendAnalysis.ts,
shipped inside the perplexity.ts bundle, lines 459-550) -/

/-- `currentInvoice.totals?.total || 0`. -/
def totalOrZero (inv : Invoice) : ℚ :=
  match inv.totals with
  | some t => t.total
  | none => 0

/-- `reduce((a, b) => a + b, 0)`. -/
def listSum (l : List ℚ) : ℚ := l.foldl (· + ·) 0

/-- `reduce((acc, total) => acc + diff * diff, 0) / length` — the
population variance accumulator of trendAnalysis lines 515-518. -/
def popVariance (l : List ℚ) (avg : ℚ) : ℚ :=
  (l.foldl (fun acc t => acc + (t - avg) * (t - avg)) 0) / (l.length : ℚ)

/-- Anomaly message for a price increase.  The source renders the
percentage with `toFixed(1)`; decimal float formatting is abstracted as
exact rational rendering. -/
def priceIncreaseMsg (pct : ℚ) : String :=
  "Price increased by " ++ toString pct ++ "% compared to average"

/-- Anomaly message for a price decrease (absolute percentage). -/
def priceDecreaseMsg (pct : ℚ) : String :=
  "Price decreased by " ++ toString |pct| ++ "% compared to average"

/-- The arithmetic core of `analyzeTrends` (trendAnalysis.ts lines
490-543), applied to the already-queried historical invoices — the up-to-10
most recent `processed` invoices of the same shop and supplier, excluding
the current one. -/
noncomputable def analyzeTrendsCore (historical : List Invoice) (cur : Invoice) :
    TrendAnalysisResult :=
  if historical.isEmpty then
    { anomalies := some ["No historical data available for comparison"] }
  else
    let currentTotal := totalOrZero cur
    let historicalTotals := (historical.map totalOrZero).filter (fun q => decide (0 < q))
    if historicalTotals.isEmpty then
      { anomalies := some ["Historical invoices missing total amounts"] }
    else
      let avgHistorical := listSum historicalTotals / (historicalTotals.length : ℚ)
      let priceChange := currentTotal - avgHistorical
      let priceChangePercent := if 0 < avgHistorical then priceChange / avgHistorical * 100 else 0
      let volatility := Real.sqrt (popVariance historicalTotals avgHistorical)
      let threshold := avgHistorical * (1/5)
      let priceAnomalies :=
        if threshold < |priceChange| then
          [if 0 < priceChange then priceIncreaseMsg priceChangePercent
           else priceDecreaseMsg priceChangePercent]
        else []
      let anomalies :=
        priceAnomalies ++ (if cur.lineItems.isEmpty then ["Invoice has no line items"] else [])
      { priceChange := some priceChange
        priceChangePercent := some priceChangePercent
        volatility := some volatility
        anomalies := if anomalies.isEmpty then none else some anomalies }

/-- `analyzeTrends` (trendAnalysis.ts lines 469-550).  The Mongo query for
historical invoices is abstracted as an `Except` input; a query failure is
absorbed by the `catch` into a safe fallback note. -/
noncomputable def analyzeTrends (queryResult : Except String (List Invoice))
    (cur : Invoice) : TrendAnalysisResult :=
  match queryResult with
  | .error _ => { anomalies := some ["Error analyzing trends"] }
  | .ok historical => analyzeTrendsCore historical cur

/-! ## Storage key helpers (src/backend/src/services/s3.ts, googleDrive.ts) -/

/-- `getS3Key` (s3.ts lines 35-40).  `isProcessed` selects the
`'processed'` branch; `extension || 'pdf'` treats the empty string as
missing. -/
def getS3Key (shopId invoiceId : String) (isProcessed : Bool)
    (extension : Option String) : String :=
  if isProcessed then
    "shops/" ++ shopId ++ "/invoices/" ++ invoiceId ++ "/processed.json"
  else
    "shops/" ++ shopId ++ "/invoices/" ++ invoiceId ++ "/original." ++
      (match extension with
       | some e => if e = "" then "pdf" else e
       | none => "pdf")

/-- `getFileExtension` (googleDrive.ts lines 180-191): mime-type table
with `'bin'` fallback. -/
def getFileExtension (mimeType : String) : String :=
  if mimeType = "application/pdf" then "pdf"
  else if mimeType = "image/png" then "png"
  else if mimeType = "image/jpeg" then "jpg"
  else if mimeType = "image/jpg" then "jpg"
  else if mimeType = "application/vnd.openxmlformats-officedocument.spreadsheetml.sheet" then "xlsx"
  else if mimeType = "application/vnd.ms-excel" then "xls"
  else "bin"

/-! ## Pipeline environment and trace -/

/-- Result of `downloadFile` (googleDrive.ts): raw bytes, mime type,
display name. -/
structure DownloadResult where
  buffer : List Nat
  mimeType : String
  name : String
deriving DecidableEq, Repr

/-- Result of `extractInvoiceData` (ocr service). -/
structure ExtractedData where
  supplierName : String
  invoiceNumber : Option String := none
  invoiceDate : Option Nat := none
  lineItems : List LineItem := []
  totals : Totals
deriving DecidableEq, Repr

/-- Injected collaborator outcomes, one field per external call the worker
makes.  This follows the specification's prescription to abstract the
global collaborator singletons as constructor-injected capabilities.
* `sha256Hex` abstracts `crypto.createHash('sha256').update(buffer).digest('hex')`;
* `uploadToS3` is the outcome of `uploadToS3` for a given key (the body
  and content type do not influence the modelled outcome);
* `classifyAttempt` is the outcome of the OpenAI round-trip inside
  `classifyPurchaseContext`'s `try` block;
* `trends` is the value `analyzeTrends` returns for this job (that
  function never throws, see `analyzeTrends`);
* `moveToProcessed` / `moveToFailed` are the outcomes of the
  `getFolderId` + `moveFile` blocks, which the worker always swallows. -/
structure Env where
  download : String → Except String DownloadResult
  sha256Hex : List Nat → String
  uploadToS3 : String → Except String Unit
  extract : List Nat → String → Except String ExtractedData
  resolveShop : String → Except String Unit
  resolveSupplier : String → Except String Nat
  resolveParts : List LineItem → Except String Unit
  classifyAttempt : Except String ContextClassificationResult
  trends : TrendAnalysisResult
  perplexityApiKey : Option String
  perplexityResponse : PerplexityResponse
  moveToProcessed : Except String Unit
  moveToFailed : Except String Unit

/-- Observable pipeline events: a persisted snapshot (`invoice.save()`)
or an external side effect performed while the given stage label is
current. -/
inductive Ev where
  | save (inv : Invoice)
  | effect (stage : String)

/-- `invoice.processing.stage = s`. -/
def setStage (inv : Invoice) (s : String) : Invoice :=
  { inv with processing := { inv.processing with stage := s } }

/-- The duplicate lookup predicate of stage 2
(`{hashSha256: hash, _id: {$ne: invoice._id}}`): same stored hash,
different document — no restriction on the other document's status. -/
def duplicateMatch (hash : String) (selfId : Nat) (j : Invoice) : Bool :=
  decide (j.hashSha256 = some hash) && !(decide (j.id = selfId))

/-- `Invoice.findOne({hashSha256: hash, _id: {$ne: selfId}})`. -/
def findDuplicate (st : List Invoice) (hash : String) (selfId : Nat) : Option Invoice :=
  st.find? (duplicateMatch hash selfId)

/-- A `try { ... } catch (e) { log }` block around a best-effort action:
the surrounding computation proceeds identically on both outcomes. -/
def swallow {α : Type} (outcome : Except String Unit) (a : α) : α :=
  match outcome with
  | .ok _ => a
  | .error _ => a

/-- Result of the nine-stage pipeline body: on error, the message thrown
together with the in-memory invoice state at the throw site (which the
retry policy then mutates and persists). -/
structure StagesResult where
  outcome : Except (String × Invoice) Invoice
  store : List Invoice
  trace : List Ev

/-- `processInvoiceStages` (processor.ts lines 154-300): the nine ordered
stages, each persisting its stage label before performing its side
effect. -/
def runStages (env : Env) (st : List Invoice) (inv0 : Invoice) : StagesResult :=
  -- Stage 1: downloading
  let inv1 := setStage inv0 "downloading"
  let st1 := saveInvoice inv1 st
  match inv1.driveFileId with
  | none => ⟨.error ("Invoice missing driveFileId", inv1), st1, [.save inv1]⟩
  | some fid =>
    match env.download fid with
    | .error e => ⟨.error (e, inv1), st1, [.save inv1, .effect "downloading"]⟩
    | .ok dl =>
      -- Stage 2: hashing
      let inv2 := setStage inv1 "hashing"
      let st2 := saveInvoice inv2 st1
      let hash := env.sha256Hex dl.buffer
      let inv2h := { inv2 with hashSha256 := some hash }
      let tr2 : List Ev :=
        [.save inv1, .effect "downloading", .save inv2, .effect "hashing"]
      match findDuplicate st2 hash inv2h.id with
      | some dup =>
          ⟨.error ("Duplicate invoice detected: " ++ toString dup.id, inv2h), st2, tr2⟩
      | none =>
        -- Stage 3: uploading
        let inv3 := setStage inv2h "uploading"
        let st3 := saveInvoice inv3 st2
        let ext := getFileExtension dl.mimeType
        let originalKey := getS3Key inv3.shopId (toString inv3.id) false (some ext)
        let tr3 := tr2 ++ [.save inv3, .effect "uploading"]
        match env.uploadToS3 originalKey with
        | .error e => ⟨.error (e, inv3), st3, tr3⟩
        | .ok _ =>
          let inv3k := { inv3 with originalS3Key := some originalKey }
          -- Stage 4: extracting
          let inv4 := setStage inv3k "extracting"
          let st4 := saveInvoice inv4 st3
          let tr4 := tr3 ++ [.save inv4, .effect "extracting"]
          match env.extract dl.buffer dl.mimeType with
          | .error e => ⟨.error (e, inv4), st4, tr4⟩
          | .ok ed =>
            let inv4e :=
              { inv4 with
                invoiceNumber := ed.invoiceNumber
                invoiceDate := ed.invoiceDate
                totals := some ed.totals
                lineItems := ed.lineItems }
            -- Stage 5: resolving_entities
            let inv5 := setStage inv4e "resolving_entities"
            let st5 := saveInvoice inv5 st4
            let tr5 := tr4 ++ [.save inv5, .effect "resolving_entities"]
            match env.resolveShop inv5.shopId with
            | .error e => ⟨.error (e, inv5), st5, tr5⟩
            | .ok _ =>
              let tr5b := tr5 ++ [.effect "resolving_entities"]
              match env.resolveSupplier ed.supplierName with
              | .error e => ⟨.error (e, inv5), st5, tr5b⟩
              | .ok supplierId =>
                let inv5s := { inv5 with supplierId := some supplierId }
                let tr5c := tr5b ++ [.effect "resolving_entities"]
                match env.resolveParts ed.lineItems with
                | .error e => ⟨.error (e, inv5s), st5, tr5c⟩
                | .ok _ =>
                  -- Stage 6: classifying_context (collaborator never throws)
                  let inv6 := setStage inv5s "classifying_context"
                  let st6 := saveInvoice inv6 st5
                  let context := classifyPurchaseContext env.classifyAttempt
                  let inv6c := { inv6 with context := some context }
                  let tr6 := tr5c ++ [.save inv6, .effect "classifying_context"]
                  -- Stage 7: analyzing_trends (collaborator never throws)
                  let inv7 := setStage inv6c "analyzing_trends"
                  let st7 := saveInvoice inv7 st6
                  let inv7t := { inv7 with trendAnalysis := some env.trends }
                  let tr7 := tr6 ++ [.save inv7, .effect "analyzing_trends"]
                  -- Stage 8: generating_recommendations (collaborator never throws)
                  let inv8 := setStage inv7t "generating_recommendations"
                  let st8 := saveInvoice inv8 st7
                  let recommendations :=
                    generateSavingsRecommendations env.perplexityApiKey env.perplexityResponse
                  let inv8r := { inv8 with recommendations := recommendations }
                  let tr8 := tr7 ++ [.save inv8, .effect "generating_recommendations"]
                  -- Stage 9: persisting
                  let inv9 := setStage inv8r "persisting"
                  let st9 := saveInvoice inv9 st8
                  let processedKey := getS3Key inv9.shopId (toString inv9.id) true none
                  let tr9 := tr8 ++ [.save inv9, .effect "persisting"]
                  match env.uploadToS3 processedKey with
                  | .error e => ⟨.error (e, inv9), st9, tr9⟩
                  | .ok _ => ⟨.ok { inv9 with processedS3Key := some processedKey }, st9, tr9⟩

/-- The retry policy of `processInvoice`'s catch block (processor.ts lines
60-95): increment `attempts`, record the error, then either park the job
as `failed` or reset it to `queued` with the lease cleared. -/
def handleFailure (inv : Invoice) (e : String) : Invoice :=
  let inv1 :=
    { inv with
      processing :=
        { inv.processing with attempts := inv.processing.attempts + 1, lastError := some e } }
  if MAX_RETRY_ATTEMPTS ≤ inv1.processing.attempts then
    { inv1 with status := .failed, processing := { inv1.processing with stage := "failed" } }
  else
    { inv1 with
      status := .queued
      processing := { inv1.processing with stage := "queued", lockedAt := none } }

/-- Result of one `processInvoice` call: `ok none` when the queue is
empty, `ok (some inv)` on success, `error e` when the pipeline failed and
the error was re-raised to the driver loop. -/
structure ProcessResult where
  outcome : Except String (Option Invoice)
  store : List Invoice
  trace : List Ev

/-- Finalization (processor.ts lines 34-35): `status=processed`,
`processing.stage='completed'`. -/
def finalizeInvoice (inv9 : Invoice) : Invoice :=
  { inv9 with
    status := .processed
    processing := { inv9.processing with stage := "completed" } }

/-- What `processInvoice` does with the outcome of the stage pipeline:
finalize on success (best-effort Drive move swallowed, then save), or
apply the retry policy, save, and re-raise on failure (with the
best-effort Drive move to the failed folder swallowed on the terminal
branch). -/
def afterStages (env : Env) (r : StagesResult) : ProcessResult :=
  match r with
  | ⟨.ok inv9, st9, tr⟩ =>
      let invF := swallow env.moveToProcessed (finalizeInvoice inv9)
      ⟨.ok (some invF), saveInvoice invF st9, tr ++ [.save invF]⟩
  | ⟨.error (e, invE), stE, tr⟩ =>
      let invF := handleFailure invE e
      let invF :=
        if invF.status = .failed then swallow env.moveToFailed invF else invF
      ⟨.error e, saveInvoice invF stE, tr ++ [.save invF]⟩

/-- `processInvoice` (processor.ts lines 15-96). -/
def processInvoice (env : Env) (now : Nat) (st : List Invoice) : ProcessResult :=
  match acquireAndLockInvoice now st with
  | (none, st1) => ⟨.ok none, st1, []⟩
  | (some inv, st1) => afterStages env (runStages env st1 inv)

/-- The driver loop's job-processing steps, one injected environment per
tick (empty-queue and error ticks just carry the store forward). -/
def runWorker (envs : List Env) (now : Nat) (st : List Invoice) : List Invoice :=
  match envs with
  | [] => st
  | env :: rest => runWorker rest now (processInvoice env now st).store

/-! ## Observation helpers for the theorems -/

/-- A job holding a lease that has not yet expired at time `now`. -/
def hasActiveLease (now : Nat) (inv : Invoice) : Bool :=
  decide (inv.status = .processing) &&
    match inv.processing.lockedAt with
    | some t => !(decide (t < stuckThreshold now))
    | none => false

/-- `N` sequential atomic `acquireNext` steps at the same instant — the
interleaving semantics of `N` concurrent callers racing an atomic
conditional update. -/
def acquireRace (now : Nat) (st : List Invoice) : Nat → List (Option Invoice) × List Invoice
  | 0 => ([], st)
  | Nat.succ n =>
      let r := acquireAndLockInvoice now st
      let rest := acquireRace now r.2 n
      (r.1 :: rest.1, rest.2)

/-- The canonical order of the nine stage labels. -/
def stageOrder : List String :=
  ["downloading", "hashing", "uploading", "extracting", "resolving_entities",
   "classifying_context", "analyzing_trends", "generating_recommendations", "persisting"]

/-- Stage labels of the persisted snapshots of a trace, in order. -/
def saveLabels (tr : List Ev) : List String :=
  tr.filterMap (fun e =>
    match e with
    | .save inv => some inv.processing.stage
    | .effect _ => none)

/-- Every side effect in the trace is preceded by a persisted snapshot
carrying the effect's stage label (the resumability checkpoint). -/
def effectsCovered : List String → List Ev → Bool
  | _, [] => true
  | seen, .save inv :: rest => effectsCovered (inv.processing.stage :: seen) rest
  | seen, .effect s :: rest => seen.contains s && effectsCovered seen rest

/-- The last persisted snapshot of a trace — the job state on disk when
the call returns. -/
def lastSave (tr : List Ev) : Option Invoice :=
  tr.foldl (fun acc e =>
    match e with
    | .save inv => some inv
    | .effect _ => acc) none

/-- Rank of a stage label in the pipeline order.  A checkpoint save
carrying label of rank `k` is made after the results of every stage of
rank below `k` were written to the document; `completed` (the
finalization save) ranks past `persisting`, and labels outside the
pipeline (`queued`, `acquired`, `failed`) rank `0`. -/
def labelRank : String → Nat
  | "downloading" => 1
  | "hashing" => 2
  | "uploading" => 3
  | "extracting" => 4
  | "resolving_entities" => 5
  | "classifying_context" => 6
  | "analyzing_trends" => 7
  | "generating_recommendations" => 8
  | "persisting" => 9
  | "completed" => 10
  | _ => 0

/-- A persisted snapshot carries the results of every stage completed
before its checkpoint: the content hash (stage 2's result) from the
`uploading` checkpoint on, the original storage key (stage 3) from
`extracting` on, the extracted totals (stage 4) from `resolving_entities`
on, the resolved supplier (stage 5) from `classifying_context` on, the
classification (stage 6) from `analyzing_trends` on, the trend analysis
(stage 7) from `generating_recommendations` on, and the processed
storage key (stage 9) on the `completed` finalization snapshot. -/
def requiredResults (inv : Invoice) : Bool :=
  (!decide (3 ≤ labelRank inv.processing.stage) || inv.hashSha256.isSome) &&
  (!decide (4 ≤ labelRank inv.processing.stage) || inv.originalS3Key.isSome) &&
  (!decide (5 ≤ labelRank inv.processing.stage) || inv.totals.isSome) &&
  (!decide (6 ≤ labelRank inv.processing.stage) || inv.supplierId.isSome) &&
  (!decide (7 ≤ labelRank inv.processing.stage) || inv.context.isSome) &&
  (!decide (8 ≤ labelRank inv.processing.stage) || inv.trendAnalysis.isSome) &&
  (!decide (10 ≤ labelRank inv.processing.stage) || inv.processedS3Key.isSome)

/-- Every persisted snapshot of a trace carries the results of the stages
completed before it (`requiredResults`). -/
def savesCarryResults (tr : List Ev) : Bool :=
  tr.all (fun e =>
    match e with
    | .save inv => requiredResults inv
    | .effect _ => true)

/-- A persisted snapshot agrees with the finished job on every result
field written before its checkpoint — i.e. each stage's results, once
written, are persisted by the following save with exactly the values the
finished job ends up carrying (stage 8's possibly-empty recommendation
list included). -/
def snapAgrees (final : Invoice) : Ev → Prop
  | .effect _ => True
  | .save snap =>
      (3 ≤ labelRank snap.processing.stage → snap.hashSha256 = final.hashSha256) ∧
      (4 ≤ labelRank snap.processing.stage → snap.originalS3Key = final.originalS3Key) ∧
      (5 ≤ labelRank snap.processing.stage →
        snap.totals = final.totals ∧ snap.lineItems = final.lineItems) ∧
      (6 ≤ labelRank snap.processing.stage → snap.supplierId = final.supplierId) ∧
      (7 ≤ labelRank snap.processing.stage → snap.context = final.context) ∧
      (8 ≤ labelRank snap.processing.stage → snap.trendAnalysis = final.trendAnalysis) ∧
      (9 ≤ labelRank snap.processing.stage → snap.recommendations = final.recommendations) ∧
      (10 ≤ labelRank snap.processing.stage → snap.processedS3Key = final.processedS3Key)

/-- `snapAgrees` for every event of a trace. -/
def allSnapAgree (final : Invoice) : List Ev → Prop
  | [] => True
  | e :: rest => snapAgrees final e ∧ allSnapAgree final rest

/-! ## Spec-side statistics formulas

Used to state the amended trend-analysis claim: the mean as
`sum / length` and the population variance as the mean squared deviation,
written with `List.sum` instead of the source's `reduce` accumulator. -/

/-- Population mean. -/
def popMean (l : List ℚ) : ℚ := l.sum / (l.length : ℚ)

/-- Population variance, written as the mean of squared deviations. -/
def popVarianceSpec (l : List ℚ) : ℚ :=
  ((l.map (fun t => (t - popMean l) * (t - popMean l))).sum) / (l.length : ℚ)

/-- The positive historical totals the trend analysis actually averages
over: `map(total || 0).filter(t => t > 0)`. -/
def positiveTotals (historical : List Invoice) : List ℚ :=
  (historical.map totalOrZero).filter (fun q => decide (0 < q))

/-- The anomaly list the amended trend claim prescribes: a price-change
message exactly when the absolute deviation exceeds 20% of the mean of
the positive historical totals, plus a zero-line-items note. -/
def specAnomalies (historical : List Invoice) (cur : Invoice) : List String :=
  (if popMean (positiveTotals historical) * (1 / 5) <
      |totalOrZero cur - popMean (positiveTotals historical)| then
    [if 0 < totalOrZero cur - popMean (positiveTotals historical) then
        priceIncreaseMsg ((totalOrZero cur - popMean (positiveTotals historical)) /
          popMean (positiveTotals historical) * 100)
      else
        priceDecreaseMsg ((totalOrZero cur - popMean (positiveTotals historical)) /
          popMean (positiveTotals historical) * 100)]
  else []) ++
    (if cur.lineItems.isEmpty then ["Invoice has no line items"] else [])

/-! ## Demonstration data for the witnesses -/

/-- A demonstration job: queued, zero attempts, with a staged source file. -/
def jobA : Invoice :=
  { id := 1, shopId := "shop1", driveFileId := some "fileA", createdAt := 100 }

/-- A demonstration stuck job: locked at time `0`, observed at
`t = 10^7` ms, far past the 30-minute staleness threshold. -/
def jobStuck : Invoice :=
  { id := 2, shopId := "shop2", status := .processing,
    processing := { stage := "downloading", attempts := 1, lockedAt := some 0 } }

/-- A demonstration extracted line item. -/
def liDemo : LineItem :=
  { description := "Brake pads", quantity := 1, unitPrice := 91.98, total := 91.98 }

/-- A demonstration extraction result. -/
def edDemo : ExtractedData :=
  { supplierName := "Acme Parts", invoiceNumber := some "INV-1",
    lineItems := [liDemo], totals := ⟨91.98, 7.36, 10, 109.34⟩ }

/-- A demonstration classification. -/
def ctxDemo : ContextClassificationResult :=
  { purchaseType := .routine, constraints := {}, confidence := 9/10,
    explanation := "demo" }

/-- A demonstration environment in which every collaborator succeeds. -/
def envOk : Env :=
  { download := fun _ => .ok ⟨[1, 2, 3], "application/pdf", "invoice.pdf"⟩
    sha256Hex := fun _ => "hashH"
    uploadToS3 := fun _ => .ok ()
    extract := fun _ _ => .ok edDemo
    resolveShop := fun _ => .ok ()
    resolveSupplier := fun _ => .ok 7
    resolveParts := fun _ => .ok ()
    classifyAttempt := .ok ctxDemo
    trends := {}
    perplexityApiKey := none
    perplexityResponse := .unparsable
    moveToProcessed := .ok ()
    moveToFailed := .ok () }

/-- A demonstration environment in which the download collaborator
throws. -/
def envFail : Env :=
  { envOk with download := fun _ => .error "boom" }

/-- A demonstration already-processed job carrying the same content hash
that `envOk.sha256Hex` produces, used for the duplicate scenarios. -/
def jobDup : Invoice :=
  { id := 3, shopId := "shop1", status := .processed,
    hashSha256 := some "hashH", createdAt := 50 }

/-- Current invoice for the trend-analysis scenarios: total 50. -/
def trendCur : Invoice :=
  { id := 20, shopId := "shop2", totals := some ⟨0, 0, 0, 50⟩ }

/-- A processed historical invoice whose total is `0` — excluded by the
positivity filter of the trend analysis. -/
def trendHistZero : Invoice :=
  { id := 21, shopId := "shop2", status := .processed, totals := some ⟨0, 0, 0, 0⟩ }

/-- A processed historical invoice with total 100. -/
def trendHist : Invoice :=
  { id := 22, shopId := "shop2", status := .processed, totals := some ⟨0, 0, 0, 100⟩ }

/-! ## Helper lemmas about the selection primitives -/

theorem olistMin_eq_none_iff {l : List Nat} : olistMin l = none ↔ l = [] := by
  cases l with
  | nil => simp [olistMin]
  | cons x xs =>
      simp only [olistMin]
      cases h : olistMin xs <;> simp

theorem olistMin_mem {l : List Nat} {m : Nat} (h : olistMin l = some m) : m ∈ l := by
  induction l generalizing m with
  | nil => simp [olistMin] at h
  | cons x xs ih =>
      simp only [olistMin] at h
      cases hx : olistMin xs with
      | none =>
          rw [hx] at h
          simp only [Option.some.injEq] at h
          simp [← h]
      | some k =>
          rw [hx] at h
          simp only [Option.some.injEq] at h
          split at h
          · simp [← h]
          · exact List.mem_cons_of_mem _ (h ▸ ih hx)

theorem olistMin_le {l : List Nat} {m : Nat} (h : olistMin l = some m) :
    ∀ x ∈ l, m ≤ x := by
  induction l generalizing m with
  | nil => simp [olistMin] at h
  | cons x xs ih =>
      intro y hy
      simp only [olistMin] at h
      cases hx : olistMin xs with
      | none =>
          rw [hx] at h
          simp only [Option.some.injEq] at h
          have hxs : xs = [] := olistMin_eq_none_iff.mp hx
          subst hxs
          rcases List.mem_cons.mp hy with hyx | hyxs
          · omega
          · simp at hyxs
      | some k =>
          rw [hx] at h
          simp only [Option.some.injEq] at h
          rcases List.mem_cons.mp hy with hyx | hyxs
          · subst hyx
            split at h <;> omega
          · have := ih hx y hyxs
            split at h <;> omega

theorem firstIdxWhere_some {p : Invoice → Bool} {l : List Invoice} {i : Nat}
    (h : firstIdxWhere p l = some i) : ∃ a, l[i]? = some a ∧ p a = true := by
  induction l generalizing i with
  | nil => simp [firstIdxWhere] at h
  | cons x xs ih =>
      simp only [firstIdxWhere] at h
      by_cases hx : p x
      · rw [if_pos hx] at h
        simp only [Option.some.injEq] at h
        exact ⟨x, by simp [← h], hx⟩
      · rw [if_neg hx] at h
        cases hfi : firstIdxWhere p xs with
        | none => rw [hfi] at h; simp at h
        | some j =>
            rw [hfi] at h
            simp at h
            obtain ⟨a, ha, hpa⟩ := ih hfi
            exact ⟨a, by simpa [← h] using ha, hpa⟩

theorem firstIdxWhere_isSome_of_mem (p : Invoice → Bool) {l : List Invoice} {a : Invoice}
    (ha : a ∈ l) (hp : p a = true) : (firstIdxWhere p l).isSome = true := by
  induction l with
  | nil => simp at ha
  | cons x xs ih =>
      simp only [firstIdxWhere]
      by_cases hx : p x
      · simp [hx]
      · rw [if_neg hx]
        rcases List.mem_cons.mp ha with h | h
        · subst h; exact absurd hp hx
        · simpa using ih h

theorem findOldestEligible_eq_none_iff {st : List Invoice} :
    findOldestEligible st = none ↔ ∀ k ∈ st, eligible k = false := by
  unfold findOldestEligible
  cases hmin : olistMin ((st.filter eligible).map (fun inv => inv.createdAt)) with
  | none =>
      have hmap := olistMin_eq_none_iff.mp hmin
      have hfil : st.filter eligible = [] := List.map_eq_nil_iff.mp hmap
      constructor
      · intro _ k hk
        by_contra hne
        have : k ∈ st.filter eligible := List.mem_filter.mpr ⟨hk, by simpa using hne⟩
        simp [hfil] at this
      · intro _
        rfl
  | some m =>
      constructor
      · intro hn
        exfalso
        have hn' : firstIdxWhere (fun inv => eligible inv && decide (inv.createdAt = m)) st =
            none := hn
        have hm := olistMin_mem hmin
        obtain ⟨inv, hinvmem, hinvc⟩ := List.mem_map.mp hm
        have hinv := List.mem_filter.mp hinvmem
        have hsome := firstIdxWhere_isSome_of_mem
          (fun inv => eligible inv && decide (inv.createdAt = m)) hinv.1
          (by simp [hinv.2, hinvc])
        rw [hn'] at hsome
        simp at hsome
      · intro hall
        exfalso
        have hfil : st.filter eligible = [] := by
          apply List.filter_eq_nil_iff.mpr
          intro a ha
          simp [hall a ha]
        rw [hfil] at hmin
        simp [olistMin] at hmin

/-! ## Claim C2: the atomic claim selects the oldest eligible queued job -/

/-- **C2**: `acquireNext()` selects only jobs with `status=queued` and
`attempts < MAX_RETRY_ATTEMPTS` (3), picks one with the earliest creation
time, sets `status=processing`, `processing.stage='acquired'` and a fresh
`processing.lockedAt`, and returns that updated job; it returns none
exactly when no eligible job exists in the swept store, so a job at the
attempt threshold is never claimed. -/
theorem acquireNext_selects_oldest_eligible (now : Nat) (st : List Invoice) :
    MAX_RETRY_ATTEMPTS = 3 ∧
    (∀ j st', acquireAndLockInvoice now st = (some j, st') →
      ∃ i inv,
        (unlockStuckInvoices now st)[i]? = some inv ∧
        eligible inv = true ∧
        inv.status = .queued ∧
        inv.processing.attempts < MAX_RETRY_ATTEMPTS ∧
        (∀ k ∈ unlockStuckInvoices now st, eligible k = true → inv.createdAt ≤ k.createdAt) ∧
        j = claimUpdate now inv ∧
        j.status = .processing ∧
        j.processing.stage = "acquired" ∧
        j.processing.lockedAt = some now ∧
        st' = (unlockStuckInvoices now st).set i j) ∧
    ((acquireAndLockInvoice now st).1 = none ↔
      ∀ k ∈ unlockStuckInvoices now st, eligible k = false) := by
  refine ⟨rfl, ?_, ?_⟩
  · intro j st' h
    unfold acquireAndLockInvoice at h
    cases hfind : findOldestEligible (unlockStuckInvoices now st) with
    | none => rw [hfind] at h; simp at h
    | some i =>
        rw [hfind] at h
        have h2 : (match (unlockStuckInvoices now st)[i]? with
            | none => ((none : Option Invoice), unlockStuckInvoices now st)
            | some inv =>
                (some (claimUpdate now inv),
                  (unlockStuckInvoices now st).set i (claimUpdate now inv))) =
            (some j, st') := h
        unfold findOldestEligible at hfind
        cases hmin : olistMin
            (((unlockStuckInvoices now st).filter eligible).map (fun inv => inv.createdAt)) with
        | none => rw [hmin] at hfind; simp at hfind
        | some m =>
            rw [hmin] at hfind
            have hfind2 : firstIdxWhere
                (fun inv => eligible inv && decide (inv.createdAt = m))
                (unlockStuckInvoices now st) = some i := hfind
            obtain ⟨inv, hget, hp⟩ := firstIdxWhere_some hfind2
            rw [hget] at h2
            simp only [Prod.mk.injEq, Option.some.injEq] at h2
            obtain ⟨hj, hst'⟩ := h2
            simp only [Bool.and_eq_true, decide_eq_true_eq] at hp
            obtain ⟨hel, hcreated⟩ := hp
            have helq : inv.status = .queued ∧ inv.processing.attempts < MAX_RETRY_ATTEMPTS := by
              have := hel
              simp only [eligible, Bool.and_eq_true, decide_eq_true_eq] at this
              exact this
            refine ⟨i, inv, hget, hel, helq.1, helq.2, ?_, hj.symm, ?_, ?_, ?_, ?_⟩
            · intro k hk hkel
              have hkmem : k.createdAt ∈
                  ((unlockStuckInvoices now st).filter eligible).map
                    (fun inv => inv.createdAt) :=
                List.mem_map.mpr ⟨k, List.mem_filter.mpr ⟨hk, hkel⟩, rfl⟩
              have := olistMin_le hmin _ hkmem
              omega
            · rw [← hj]; rfl
            · rw [← hj]; rfl
            · rw [← hj]; rfl
            · rw [← hst', ← hj]
  · constructor
    · intro h
      unfold acquireAndLockInvoice at h
      cases hfind : findOldestEligible (unlockStuckInvoices now st) with
      | none => exact findOldestEligible_eq_none_iff.mp hfind
      | some i =>
          rw [hfind] at h
          have hfind' := hfind
          unfold findOldestEligible at hfind'
          have hex : ∃ a, (unlockStuckInvoices now st)[i]? = some a := by
            cases hmin : olistMin
                (((unlockStuckInvoices now st).filter eligible).map
                  (fun inv => inv.createdAt)) with
            | none => rw [hmin] at hfind'; simp at hfind'
            | some m =>
                rw [hmin] at hfind'
                have hfind2 : firstIdxWhere
                    (fun inv => eligible inv && decide (inv.createdAt = m))
                    (unlockStuckInvoices now st) = some i := hfind'
                obtain ⟨a, ha, _⟩ := firstIdxWhere_some hfind2
                exact ⟨a, ha⟩
          obtain ⟨a, ha⟩ := hex
          have h2 : (match (unlockStuckInvoices now st)[i]? with
              | none => ((none : Option Invoice), unlockStuckInvoices now st)
              | some inv =>
                  (some (claimUpdate now inv),
                    (unlockStuckInvoices now st).set i (claimUpdate now inv))).1 = none := h
          rw [ha] at h2
          simp at h2
    · intro hall
      unfold acquireAndLockInvoice
      rw [findOldestEligible_eq_none_iff.mpr hall]

/-- Witness for C2: on a store holding exactly `jobA`, the claim operation
returns the locked update of `jobA` and writes it back. -/
theorem acquireNext_selects_oldest_eligible_witness :
    ∃ i inv,
      (unlockStuckInvoices 1000 [jobA])[i]? = some inv ∧
      eligible inv = true ∧
      inv.status = .queued ∧
      inv.processing.attempts < MAX_RETRY_ATTEMPTS ∧
      (∀ k ∈ unlockStuckInvoices 1000 [jobA], eligible k = true →
        inv.createdAt ≤ k.createdAt) ∧
      claimUpdate 1000 jobA = claimUpdate 1000 inv ∧
      (claimUpdate 1000 jobA).status = .processing ∧
      (claimUpdate 1000 jobA).processing.stage = "acquired" ∧
      (claimUpdate 1000 jobA).processing.lockedAt = some 1000 ∧
      [claimUpdate 1000 jobA] = (unlockStuckInvoices 1000 [jobA]).set i (claimUpdate 1000 jobA) :=
  (acquireNext_selects_oldest_eligible 1000 [jobA]).2.1
    (claimUpdate 1000 jobA) [claimUpdate 1000 jobA] rfl

/-! ## Claim C4: stale-lease recovery on every claim attempt -/

/-- **C4**: before every claim attempt the sweep resets each job stuck in
`processing` with a lease older than 30 minutes back to `queued` with the
lease cleared and a non-empty "Automatically unlocked" note, persists it,
leaves every other job untouched, and runs before any claim happens. -/
theorem stale_lease_recovery (now : Nat) (st : List Invoice) :
    (∀ j ∈ st, isStuck now j = true →
      ∃ t, j.processing.lockedAt = some t ∧
        j.status = .processing ∧
        t < stuckThreshold now ∧
        unlockInvoice now j ∈ unlockStuckInvoices now st ∧
        (unlockInvoice now j).status = .queued ∧
        (unlockInvoice now j).processing.stage = "queued" ∧
        (unlockInvoice now j).processing.lockedAt = none ∧
        (unlockInvoice now j).processing.lastError = some (stuckMessage now t) ∧
        stuckMessage now t ≠ "" ∧
        (∃ p, stuckMessage now t = p ++ " minutes. Automatically unlocked.")) ∧
    (∀ j ∈ st, isStuck now j = false → j ∈ unlockStuckInvoices now st) ∧
    ((acquireAndLockInvoice now st).2 = unlockStuckInvoices now st ∨
      ∃ i j', (acquireAndLockInvoice now st).2 = (unlockStuckInvoices now st).set i j') := by
  refine ⟨?_, ?_, ?_⟩
  · intro j hj hstuck
    have hs := hstuck
    simp only [isStuck, Bool.and_eq_true, decide_eq_true_eq] at hs
    obtain ⟨hstatus, hlock⟩ := hs
    cases hl : j.processing.lockedAt with
    | none => rw [hl] at hlock; simp at hlock
    | some t =>
        rw [hl] at hlock
        refine ⟨t, rfl, hstatus, by simpa using hlock, ?_, ?_, ?_, ?_, ?_, ?_, ?_⟩
        · have hfj : (fun inv => if isStuck now inv then unlockInvoice now inv else inv) j =
              unlockInvoice now j := by simp [hstuck]
          exact hfj ▸ List.mem_map_of_mem _ hj
        · simp [unlockInvoice, hl]
        · simp [unlockInvoice, hl]
        · simp [unlockInvoice, hl]
        · simp [unlockInvoice, hl]
        · intro hemp
          have hlen := congrArg String.length hemp
          rw [stuckMessage] at hlen
          rw [String.length_append, String.length_append] at hlen
          have h35 : ("Invoice was stuck in processing for " : String).length = 36 := by decide
          simp [h35] at hlen
        · exact ⟨"Invoice was stuck in processing for " ++
            toString (minutesRounded (now - t)), by rw [stuckMessage, String.append_assoc]⟩
  · intro j hj hns
    have hfj : (fun inv => if isStuck now inv then unlockInvoice now inv else inv) j = j := by
      simp [hns]
    exact hfj ▸ List.mem_map_of_mem _ hj
  · unfold acquireAndLockInvoice
    cases hfind : findOldestEligible (unlockStuckInvoices now st) with
    | none => exact Or.inl rfl
    | some i =>
        show (match (unlockStuckInvoices now st)[i]? with
            | none => ((none : Option Invoice), unlockStuckInvoices now st)
            | some inv =>
                (some (claimUpdate now inv),
                  (unlockStuckInvoices now st).set i (claimUpdate now inv))).2 =
            unlockStuckInvoices now st ∨
          ∃ i' j', (match (unlockStuckInvoices now st)[i]? with
            | none => ((none : Option Invoice), unlockStuckInvoices now st)
            | some inv =>
                (some (claimUpdate now inv),
                  (unlockStuckInvoices now st).set i (claimUpdate now inv))).2 =
            (unlockStuckInvoices now st).set i' j'
        cases hget : (unlockStuckInvoices now st)[i]? with
        | none => exact Or.inl rfl
        | some inv => exact Or.inr ⟨i, claimUpdate now inv, rfl⟩

/-- Witness for C4 at the concrete stuck job `jobStuck`. -/
theorem stale_lease_recovery_witness :
    ∃ t, jobStuck.processing.lockedAt = some t ∧
      jobStuck.status = .processing ∧
      t < stuckThreshold 10000000 ∧
      unlockInvoice 10000000 jobStuck ∈ unlockStuckInvoices 10000000 [jobStuck] ∧
      (unlockInvoice 10000000 jobStuck).status = .queued ∧
      (unlockInvoice 10000000 jobStuck).processing.stage = "queued" ∧
      (unlockInvoice 10000000 jobStuck).processing.lockedAt = none ∧
      (unlockInvoice 10000000 jobStuck).processing.lastError =
        some (stuckMessage 10000000 t) ∧
      stuckMessage 10000000 t ≠ "" ∧
      (∃ p, stuckMessage 10000000 t = p ++ " minutes. Automatically unlocked.") :=
  (stale_lease_recovery 10000000 [jobStuck]).1 jobStuck (by simp) (by decide)

/-! ## Claim C1: at-most-one claim under racing callers -/

theorem countP_set_add {l : List Invoice} {i : Nat} {a : Invoice} (b : Invoice)
    (p : Invoice → Bool) (h : l[i]? = some a) :
    (l.set i b).countP p + (if p a then 1 else 0) =
      l.countP p + (if p b then 1 else 0) := by
  induction l generalizing i with
  | nil => simp at h
  | cons x xs ih =>
      cases i with
      | zero =>
          simp only [List.getElem?_cons_zero, Option.some.injEq] at h
          subst h
          simp only [List.set_cons_zero, List.countP_cons]
          omega
      | succ n =>
          simp only [List.getElem?_cons_succ] at h
          simp only [List.set_cons_succ, List.countP_cons]
          have := ih h
          omega

theorem eligible_claimUpdate_false (now : Nat) (inv : Invoice) :
    eligible (claimUpdate now inv) = false := by
  simp [eligible, claimUpdate]

theorem hasActiveLease_claimUpdate (now : Nat) (inv : Invoice) :
    hasActiveLease now (claimUpdate now inv) = true := by
  simp only [hasActiveLease, claimUpdate]
  simp [stuckThreshold]

theorem isStuck_claimUpdate_false (now : Nat) (inv : Invoice) :
    isStuck now (claimUpdate now inv) = false := by
  simp only [isStuck, claimUpdate]
  simp [stuckThreshold]

theorem hasActiveLease_of_eligible {now : Nat} {inv : Invoice}
    (h : eligible inv = true) : hasActiveLease now inv = false := by
  simp only [eligible, Bool.and_eq_true, decide_eq_true_eq] at h
  simp [hasActiveLease, h.1]

theorem unlockStuckInvoices_id {now : Nat} {st : List Invoice}
    (h : ∀ j ∈ st, isStuck now j = false) : unlockStuckInvoices now st = st := by
  induction st with
  | nil => rfl
  | cons x xs ih =>
      simp only [unlockStuckInvoices, List.map_cons]
      rw [if_neg (by simp [h x (List.mem_cons_self x xs)])]
      have := ih (fun j hj => h j (List.mem_cons_of_mem x hj))
      simp only [unlockStuckInvoices] at this
      rw [this]

theorem not_stuck_after_sweep {now : Nat} {st : List Invoice} :
    ∀ j ∈ unlockStuckInvoices now st, isStuck now j = false := by
  intro j hj
  obtain ⟨x, _, hfx⟩ := List.mem_map.mp hj
  by_cases hs : isStuck now x
  · rw [if_pos hs] at hfx
    subst hfx
    have hs' := hs
    simp only [isStuck, Bool.and_eq_true, decide_eq_true_eq] at hs'
    cases hl : x.processing.lockedAt with
    | none => rw [hl] at hs'; simp at hs'
    | some t => simp [unlockInvoice, hl, isStuck]
  · rw [if_neg hs] at hfx
    subst hfx
    simpa using hs

theorem countP_hasActiveLease_sweep {now : Nat} {st : List Invoice} :
    (unlockStuckInvoices now st).countP (hasActiveLease now) =
      st.countP (hasActiveLease now) := by
  induction st with
  | nil => rfl
  | cons x xs ih =>
      simp only [unlockStuckInvoices, List.map_cons, List.countP_cons] at *
      rw [ih]
      congr 1
      by_cases hs : isStuck now x
      · rw [if_pos hs]
        have hs' := hs
        simp only [isStuck, Bool.and_eq_true, decide_eq_true_eq] at hs'
        cases hl : x.processing.lockedAt with
        | none => rw [hl] at hs'; simp at hs'
        | some t =>
            rw [hl] at hs'
            have hact : hasActiveLease now x = false := by
              simp [hasActiveLease, hl]
              intro
              simpa using hs'.2
            rw [hact]
            simp [unlockInvoice, hl, hasActiveLease]
      · rw [if_neg hs]

theorem acquire_eq_none_of_no_eligible {now : Nat} {st : List Invoice}
    (hstable : ∀ j ∈ st, isStuck now j = false)
    (h0 : ∀ j ∈ st, eligible j = false) :
    acquireAndLockInvoice now st = (none, st) := by
  unfold acquireAndLockInvoice
  rw [unlockStuckInvoices_id hstable, findOldestEligible_eq_none_iff.mpr h0]

theorem acquire_claims_of_countP_one {now : Nat} {st : List Invoice}
    (hstable : ∀ j ∈ st, isStuck now j = false)
    (h1 : st.countP eligible = 1) :
    ∃ i inv, st[i]? = some inv ∧ eligible inv = true ∧
      acquireAndLockInvoice now st =
        (some (claimUpdate now inv), st.set i (claimUpdate now inv)) := by
  have hne : st.filter eligible ≠ [] := by
    intro hf
    rw [List.countP_eq_length_filter, hf] at h1
    simp at h1
  obtain ⟨m, hmin⟩ : ∃ m,
      olistMin ((st.filter eligible).map fun inv => inv.createdAt) = some m := by
    cases hm : olistMin ((st.filter eligible).map fun inv => inv.createdAt) with
    | none =>
        exfalso
        exact hne (List.map_eq_nil_iff.mp (olistMin_eq_none_iff.mp hm))
    | some m => exact ⟨m, rfl⟩
  obtain ⟨inv0, hinv0mem, hc⟩ := List.mem_map.mp (olistMin_mem hmin)
  have hinv0 := List.mem_filter.mp hinv0mem
  have hsome := firstIdxWhere_isSome_of_mem
    (fun inv => eligible inv && decide (inv.createdAt = m)) hinv0.1
    (by simp [hinv0.2, hc])
  obtain ⟨i, hi⟩ := Option.isSome_iff_exists.mp hsome
  obtain ⟨inv, hget, hp⟩ := firstIdxWhere_some hi
  have hfoe : findOldestEligible st = some i := by
    unfold findOldestEligible
    rw [hmin]
    exact hi
  refine ⟨i, inv, hget, ?_, ?_⟩
  · have hp' := hp
    simp only [Bool.and_eq_true] at hp'
    exact hp'.1
  unfold acquireAndLockInvoice
  rw [unlockStuckInvoices_id hstable, hfoe]
  show (match st[i]? with
      | none => ((none : Option Invoice), st)
      | some inv =>
          (some (claimUpdate now inv), st.set i (claimUpdate now inv))) =
    (some (claimUpdate now inv), st.set i (claimUpdate now inv))
  rw [hget]

theorem acquireRace_fixpoint {now : Nat} {st : List Invoice}
    (hstable : ∀ j ∈ st, isStuck now j = false)
    (h0 : st.countP eligible = 0) :
    ∀ M, acquireRace now st M = (List.replicate M none, st) := by
  intro M
  induction M with
  | zero => rfl
  | succ n ih =>
      have hnone : acquireAndLockInvoice now st = (none, st) :=
        acquire_eq_none_of_no_eligible hstable
          (fun j hj => by
            have := List.countP_eq_zero.mp h0 j hj
            simpa using this)
      simp only [acquireRace, hnone, ih, List.replicate_succ]

theorem countP_isSome_replicate_none (n : Nat) :
    (List.replicate n (none : Option Invoice)).countP Option.isSome = 0 := by
  induction n with
  | zero => rfl
  | succ k ih => simp [List.replicate_succ, List.countP_cons, ih]

/-- **C1**: modelling each `acquireNext()` call as one atomic conditional
update, `N` callers racing at the same instant against a store whose
post-sweep state holds exactly one eligible job and no active lease obtain
exactly one claim between them, and after any number of calls at most one
job holds `status=processing` with a non-expired lease. -/
theorem acquire_race_at_most_one_claim (now : Nat) (st : List Invoice) (N : Nat)
    (h1 : (unlockStuckInvoices now st).countP eligible = 1)
    (h2 : (unlockStuckInvoices now st).countP (hasActiveLease now) = 0) :
    (1 ≤ N → ((acquireRace now st N).1.countP Option.isSome) = 1) ∧
    (∀ M, ((acquireRace now st M).2.countP (hasActiveLease now)) ≤ 1) := by
  have hstable1 : ∀ j ∈ unlockStuckInvoices now st, isStuck now j = false :=
    not_stuck_after_sweep
  obtain ⟨i, inv, hget, hel, hacq1⟩ := acquire_claims_of_countP_one hstable1 h1
  have hacq : acquireAndLockInvoice now st =
      (some (claimUpdate now inv),
        (unlockStuckInvoices now st).set i (claimUpdate now inv)) := by
    unfold acquireAndLockInvoice
    unfold acquireAndLockInvoice at hacq1
    rw [unlockStuckInvoices_id hstable1] at hacq1
    exact hacq1
  have hcnt := countP_set_add (claimUpdate now inv) eligible hget
  rw [hel, eligible_claimUpdate_false now inv] at hcnt
  simp at hcnt
  have hel0 : ((unlockStuckInvoices now st).set i (claimUpdate now inv)).countP eligible
      = 0 := by omega
  have hactcnt := countP_set_add (claimUpdate now inv) (hasActiveLease now) hget
  rw [hasActiveLease_of_eligible hel, hasActiveLease_claimUpdate now inv] at hactcnt
  simp at hactcnt
  have hact1 : ((unlockStuckInvoices now st).set i
      (claimUpdate now inv)).countP (hasActiveLease now) = 1 := by omega
  have hstable2 : ∀ j ∈ (unlockStuckInvoices now st).set i (claimUpdate now inv),
      isStuck now j = false := by
    intro j hj
    rcases List.mem_or_eq_of_mem_set hj with hm | he
    · exact hstable1 j hm
    · rw [he]
      exact isStuck_claimUpdate_false now inv
  constructor
  · intro hN
    obtain ⟨n, rfl⟩ : ∃ n, N = n + 1 := ⟨N - 1, by omega⟩
    simp only [acquireRace, hacq,
      acquireRace_fixpoint hstable2 hel0 n, List.countP_cons]
    simp [countP_isSome_replicate_none]
  · intro M
    cases M with
    | zero =>
        simp only [acquireRace]
        have := @countP_hasActiveLease_sweep now st
        omega
    | succ n =>
        simp only [acquireRace, hacq, acquireRace_fixpoint hstable2 hel0 n]
        omega

/-- Witness for C1: three callers race a one-job store; exactly one claim
is handed out, and a single active lease exists afterwards. -/
theorem acquire_race_at_most_one_claim_witness :
    (1 ≤ 3 → ((acquireRace 1000 [jobA] 3).1.countP Option.isSome) = 1) ∧
    (∀ M, ((acquireRace 1000 [jobA] M).2.countP (hasActiveLease 1000)) ≤ 1) :=
  acquire_race_at_most_one_claim 1000 [jobA] 3 (by decide) (by decide)

/-! ## Structural lemmas about `processInvoice` -/

theorem swallow_eq {α : Type} (o : Except String Unit) (a : α) : swallow o a = a := by
  cases o <;> rfl

theorem afterStages_ok (env : Env) (inv9 : Invoice) (st9 : List Invoice) (tr : List Ev) :
    afterStages env ⟨.ok inv9, st9, tr⟩ =
      ⟨.ok (some (finalizeInvoice inv9)), saveInvoice (finalizeInvoice inv9) st9,
        tr ++ [.save (finalizeInvoice inv9)]⟩ := by
  unfold afterStages
  dsimp only
  rw [swallow_eq]

theorem afterStages_error (env : Env) (e : String) (invE : Invoice)
    (stE : List Invoice) (tr : List Ev) :
    afterStages env ⟨.error (e, invE), stE, tr⟩ =
      ⟨.error e, saveInvoice (handleFailure invE e) stE,
        tr ++ [.save (handleFailure invE e)]⟩ := by
  unfold afterStages
  dsimp only
  by_cases h : (handleFailure invE e).status = .failed
  · rw [if_pos h, swallow_eq]
  · rw [if_neg h]

theorem processInvoice_none {env : Env} {now : Nat} {st st1 : List Invoice}
    (hacq : acquireAndLockInvoice now st = (none, st1)) :
    processInvoice env now st = ⟨.ok none, st1, []⟩ := by
  unfold processInvoice
  rw [hacq]

theorem processInvoice_some {env : Env} {now : Nat} {st st1 : List Invoice} {inv : Invoice}
    (hacq : acquireAndLockInvoice now st = (some inv, st1)) :
    processInvoice env now st = afterStages env (runStages env st1 inv) := by
  unfold processInvoice
  rw [hacq]

theorem lastSave_append_save (tr : List Ev) (inv : Invoice) :
    lastSave (tr ++ [.save inv]) = some inv := by
  unfold lastSave
  rw [List.foldl_append]
  rfl

/-! ## Claim C9: classification and recommendation collaborators never throw -/

/-- **C9**: `classifyPurchaseContext` returns the fixed default
`{purchaseType: routine, constraints: {}, confidence: 0.5}` on any
internal failure, `generateSavingsRecommendations` returns `[]` on a
missing API key, a failed request, or an unparsable response, and no
pipeline failure ever occurs while the stage label is
`classifying_context` or `generating_recommendations` — stages 6 and 8
always complete with fallback values. -/
theorem collaborators_never_throw :
    (∀ e, classifyPurchaseContext (.error e) = defaultClassification) ∧
    defaultClassification.purchaseType = .routine ∧
    defaultClassification.constraints = {} ∧
    defaultClassification.confidence = 1/2 ∧
    (∀ key msg, generateSavingsRecommendations key (.requestFailed msg) = []) ∧
    (∀ key, generateSavingsRecommendations key .unparsable = []) ∧
    (∀ resp, generateSavingsRecommendations none resp = []) ∧
    (∀ env st inv e invE stE tr,
      runStages env st inv = ⟨.error (e, invE), stE, tr⟩ →
      invE.processing.stage ≠ "classifying_context" ∧
      invE.processing.stage ≠ "generating_recommendations") := by
  refine ⟨fun e => rfl, rfl, rfl, rfl, ?_, ?_, fun resp => rfl, ?_⟩
  · intro key msg
    cases key <;> rfl
  · intro key
    cases key <;> rfl
  · intro env st inv e invE stE tr h
    unfold runStages at h
    dsimp only at h
    repeat' split at h
    all_goals injection h with h1 h2 h3
    all_goals first
      | (injection h1 with hp; injection hp with he hi; subst hi;
         constructor <;> (intro hc; simp [setStage] at hc))
      | (simp at h1; done)

/-- Witness for C9 at a concrete failing run (download throws). -/
theorem collaborators_never_throw_witness :
    classifyPurchaseContext (.error "api down") = defaultClassification ∧
    generateSavingsRecommendations (some "key") (.requestFailed "timeout") = [] ∧
    ((setStage (claimUpdate 1000 jobA) "downloading").processing.stage ≠
        "classifying_context" ∧
      (setStage (claimUpdate 1000 jobA) "downloading").processing.stage ≠
        "generating_recommendations") := by
  refine ⟨collaborators_never_throw.1 "api down",
    collaborators_never_throw.2.2.2.2.1 (some "key") "timeout", ?_⟩
  exact collaborators_never_throw.2.2.2.2.2.2.2 envFail [claimUpdate 1000 jobA]
    (claimUpdate 1000 jobA) "boom" (setStage (claimUpdate 1000 jobA) "downloading")
    (saveInvoice (setStage (claimUpdate 1000 jobA) "downloading") [claimUpdate 1000 jobA])
    [.save (setStage (claimUpdate 1000 jobA) "downloading"), .effect "downloading"] rfl

/-! ## Claim C7: finalization of a fully successful run -/

theorem runStages_ok_spec {env : Env} {st : List Invoice} {inv j : Invoice}
    {st9 : List Invoice} {tr : List Ev}
    (hrun : runStages env st inv = ⟨.ok j, st9, tr⟩) :
    ∃ fid dl ed,
      inv.driveFileId = some fid ∧
      env.download fid = .ok dl ∧
      env.extract dl.buffer dl.mimeType = .ok ed ∧
      j.originalS3Key.isSome = true ∧
      j.processedS3Key.isSome = true ∧
      j.hashSha256 = some (env.sha256Hex dl.buffer) ∧
      j.totals = some ed.totals ∧
      j.lineItems = ed.lineItems ∧
      j.supplierId.isSome = true ∧
      j.context.isSome = true ∧
      j.trendAnalysis.isSome = true := by
  unfold runStages at hrun
  dsimp only at hrun
  repeat' split at hrun
  all_goals injection hrun with h1 h2 h3
  all_goals first
    | (injection h1 with hj; subst hj;
       exact ⟨_, _, _, by assumption, by assumption, by assumption,
         rfl, rfl, rfl, rfl, rfl, rfl, rfl, rfl⟩)
    | (simp at h1; done)

theorem runStages_env_congr {env env' : Env} {st : List Invoice} {inv : Invoice}
    (h1 : env.download = env'.download)
    (h2 : env.sha256Hex = env'.sha256Hex)
    (h3 : env.uploadToS3 = env'.uploadToS3)
    (h4 : env.extract = env'.extract)
    (h5 : env.resolveShop = env'.resolveShop)
    (h6 : env.resolveSupplier = env'.resolveSupplier)
    (h7 : env.resolveParts = env'.resolveParts)
    (h8 : env.classifyAttempt = env'.classifyAttempt)
    (h9 : env.trends = env'.trends)
    (h10 : env.perplexityApiKey = env'.perplexityApiKey)
    (h11 : env.perplexityResponse = env'.perplexityResponse) :
    runStages env st inv = runStages env' st inv := by
  cases env
  cases env'
  simp only at h1 h2 h3 h4 h5 h6 h7 h8 h9 h10 h11
  subst h1 h2 h3 h4 h5 h6 h7 h8 h9 h10 h11
  rfl

/-- **C7**: when the pipeline returns successfully, the finalized job has
`status=processed`, `processing.stage='completed'`, non-null original and
processed storage keys, a non-null content hash, totals and line items
populated from the extraction result, and the finalized job is the last
persisted snapshot; and the outcome is independent of whether the
best-effort Drive move succeeds or fails. -/
theorem finalization_spec :
    (∀ env now st invF, (processInvoice env now st).outcome = .ok (some invF) →
      invF.status = .processed ∧
      invF.processing.stage = "completed" ∧
      invF.originalS3Key.isSome = true ∧
      invF.processedS3Key.isSome = true ∧
      invF.hashSha256.isSome = true ∧
      invF.totals.isSome = true ∧
      (∃ fid dl ed, env.download fid = .ok dl ∧
        env.extract dl.buffer dl.mimeType = .ok ed ∧
        invF.totals = some ed.totals ∧ invF.lineItems = ed.lineItems) ∧
      lastSave (processInvoice env now st).trace = some invF) ∧
    (∀ env m now st,
      processInvoice { env with moveToProcessed := m } now st =
        processInvoice env now st) := by
  constructor
  · intro env now st invF h
    rcases hacq : acquireAndLockInvoice now st with ⟨o, st1⟩
    cases o with
    | none =>
        rw [processInvoice_none hacq] at h
        exact absurd h (by simp)
    | some inv =>
        rw [processInvoice_some hacq] at h
        rcases hrun : runStages env st1 inv with ⟨o2, s9, tr⟩
        cases o2 with
        | error p =>
            rcases p with ⟨e, invE⟩
            rw [hrun, afterStages_error] at h
            exact absurd h (by simp)
        | ok inv9 =>
            rw [hrun, afterStages_ok] at h
            simp only [Except.ok.injEq, Option.some.injEq] at h
            obtain ⟨fid, dl, ed, hfid, hdl, hext, hkey1, hkey2, hhash, htot, hli,
                hsup, hctx, htrend⟩ :=
              runStages_ok_spec hrun
            subst h
            refine ⟨rfl, rfl, ?_, ?_, ?_, ?_, ⟨fid, dl, ed, hdl, hext, ?_, ?_⟩, ?_⟩
            · simp [finalizeInvoice, hkey1]
            · simp [finalizeInvoice, hkey2]
            · simp [finalizeInvoice, hhash]
            · simp [finalizeInvoice, htot]
            · simp [finalizeInvoice, htot]
            · simp [finalizeInvoice, hli]
            · rw [processInvoice_some hacq, hrun, afterStages_ok]
              exact lastSave_append_save tr (finalizeInvoice inv9)
  · intro env m now st
    rcases hacq : acquireAndLockInvoice now st with ⟨o, st1⟩
    cases o with
    | none =>
        rw [@processInvoice_none { env with moveToProcessed := m } now st st1 hacq,
          @processInvoice_none env now st st1 hacq]
    | some inv =>
        rw [@processInvoice_some { env with moveToProcessed := m } now st st1 inv hacq,
          @processInvoice_some env now st st1 inv hacq]
        rw [@runStages_env_congr { env with moveToProcessed := m } env st1 inv
          rfl rfl rfl rfl rfl rfl rfl rfl rfl rfl rfl]
        rcases hrun : runStages env st1 inv with ⟨o2, s9, tr⟩
        cases o2 with
        | ok inv9 => rw [afterStages_ok, afterStages_ok]
        | error p =>
            rcases p with ⟨e, invE⟩
            rw [afterStages_error, afterStages_error]

/-- Witness for C7 at a concrete fully-successful run. -/
theorem finalization_spec_witness :
    ∃ invF, (processInvoice envOk 1000 [jobA]).outcome = .ok (some invF) ∧
      invF.status = .processed ∧
      invF.processing.stage = "completed" ∧
      invF.totals.isSome = true := by
  obtain ⟨invF, hF⟩ : ∃ invF,
      (processInvoice envOk 1000 [jobA]).outcome = .ok (some invF) := ⟨_, rfl⟩
  have h := finalization_spec.1 envOk 1000 [jobA] invF hF
  exact ⟨invF, hF, h.1, h.2.1, h.2.2.2.2.2.1⟩

/-! ## Claim C5: checkpoint-before-side-effect, forward-only stages, and
result persistence -/

theorem runStages_saves_carry (env : Env) (st : List Invoice) (inv0 : Invoice) :
    savesCarryResults (runStages env st inv0).trace = true := by
  unfold runStages
  dsimp only
  repeat' split
  all_goals rfl

theorem handleFailure_requiredResults (inv : Invoice) (e : String) :
    requiredResults (handleFailure inv e) = true := by
  unfold handleFailure
  dsimp only
  split <;> rfl

set_option maxHeartbeats 3200000 in
theorem runStages_ok_agree {env : Env} {st : List Invoice} {inv inv9 : Invoice}
    {st9 : List Invoice} {tr : List Ev}
    (hrun : runStages env st inv = ⟨.ok inv9, st9, tr⟩) :
    allSnapAgree (finalizeInvoice inv9) (tr ++ [.save (finalizeInvoice inv9)]) := by
  unfold runStages at hrun
  dsimp only at hrun
  repeat' split at hrun
  all_goals injection hrun with h1 h2 h3
  all_goals first
    | (injection h1 with hj; subst hj; subst h3;
       repeat' constructor
       all_goals intro hc
       all_goals try dsimp only [setStage, finalizeInvoice, labelRank] at hc ⊢
       all_goals first
         | exact absurd hc (by decide)
         | rfl
         | exact ⟨rfl, rfl⟩)
    | (simp at h1; done)

/-- **C5**: every stage of `processInvoiceStages` persists its own stage
label before performing the stage's side effect; the persisted labels form
a prefix of the fixed nine-stage order (so the label only moves forward
within one execution), all nine appear exactly when the run succeeds, the
first persisted label is always `downloading` (each attempt restarts from
stage 1), and on a retryable failure the policy resets the label to the
initial `queued` stage.  Each stage's results are persisted again after
being written: every persisted snapshot of the stage trace — and of the
whole `processInvoice` trace, finalization and failure-handler saves
included — carries the results of all stages completed before its
checkpoint (`savesCarryResults`), and on a successful run every persisted
snapshot agrees with the finished job on every result field already
written at its checkpoint, the finalization save persisting stage 9's
processed storage key (`allSnapAgree`). -/
theorem stage_checkpoint_discipline (env : Env) (st : List Invoice) (inv0 : Invoice) :
    ((saveLabels (runStages env st inv0).trace).isPrefixOf stageOrder = true) ∧
    (∀ invR st9 tr, runStages env st inv0 = ⟨.ok invR, st9, tr⟩ →
      saveLabels tr = stageOrder) ∧
    (effectsCovered [] (runStages env st inv0).trace = true) ∧
    ((saveLabels (runStages env st inv0).trace).head? = some "downloading") ∧
    (∀ inv e, inv.processing.attempts + 1 < MAX_RETRY_ATTEMPTS →
      (handleFailure inv e).status = .queued ∧
      (handleFailure inv e).processing.stage = "queued") ∧
    (savesCarryResults (runStages env st inv0).trace = true) ∧
    (∀ now, savesCarryResults (processInvoice env now st).trace = true) ∧
    (∀ now invF, (processInvoice env now st).outcome = .ok (some invF) →
      allSnapAgree invF (processInvoice env now st).trace) := by
  refine ⟨?_, ?_, ?_, ?_, ?_, ?_, ?_, ?_⟩
  · unfold runStages
    dsimp only
    repeat' split
    all_goals rfl
  · unfold runStages
    dsimp only
    repeat' split
    all_goals intro invR st9 tr h
    all_goals injection h with h1 h2 h3
    all_goals first
      | (subst h3; rfl)
      | (exfalso; simp at h1)
  · unfold runStages
    dsimp only
    repeat' split
    all_goals rfl
  · unfold runStages
    dsimp only
    repeat' split
    all_goals rfl
  · intro inv e h
    unfold handleFailure
    rw [if_neg (show ¬(MAX_RETRY_ATTEMPTS ≤ inv.processing.attempts + 1) by omega)]
    exact ⟨rfl, rfl⟩
  · exact runStages_saves_carry env st inv0
  · intro now
    rcases hacq : acquireAndLockInvoice now st with ⟨o, st1⟩
    cases o with
    | none =>
        rw [processInvoice_none hacq]
        rfl
    | some inv =>
        rw [processInvoice_some hacq]
        rcases hrun : runStages env st1 inv with ⟨o2, s9, t⟩
        cases o2 with
        | ok inv9 =>
            rw [afterStages_ok]
            have hc := runStages_saves_carry env st1 inv
            rw [hrun] at hc
            obtain ⟨fid, dl, ed, hfid, hdl, hext, hkey1, hkey2, hhash, htot, hli,
              hsup, hctx, htrend⟩ := runStages_ok_spec hrun
            show savesCarryResults (t ++ [.save (finalizeInvoice inv9)]) = true
            unfold savesCarryResults at hc ⊢
            rw [List.all_append, hc, Bool.true_and]
            simp only [List.all_cons, List.all_nil, Bool.and_true]
            simp [requiredResults, labelRank, finalizeInvoice, hkey1, hkey2,
              hhash, htot, hsup, hctx, htrend]
        | error p =>
            rcases p with ⟨e, invE⟩
            rw [afterStages_error]
            have hc := runStages_saves_carry env st1 inv
            rw [hrun] at hc
            show savesCarryResults (t ++ [.save (handleFailure invE e)]) = true
            unfold savesCarryResults at hc ⊢
            rw [List.all_append, hc, Bool.true_and]
            simp only [List.all_cons, List.all_nil, Bool.and_true]
            exact handleFailure_requiredResults invE e
  · intro now invF h
    rcases hacq : acquireAndLockInvoice now st with ⟨o, st1⟩
    cases o with
    | none =>
        rw [processInvoice_none hacq] at h
        exact absurd h (by simp)
    | some inv =>
        rw [processInvoice_some hacq] at h
        rcases hrun : runStages env st1 inv with ⟨o2, s9, t⟩
        cases o2 with
        | error p =>
            rcases p with ⟨e, invE⟩
            rw [hrun, afterStages_error] at h
            exact absurd h (by simp)
        | ok inv9 =>
            rw [hrun, afterStages_ok] at h
            simp only [Except.ok.injEq, Option.some.injEq] at h
            subst h
            rw [processInvoice_some hacq, hrun, afterStages_ok]
            exact runStages_ok_agree hrun

/-- Witness for C5: a concrete successful run persists all nine labels in
order, every side effect is covered by a prior checkpoint, the retry
reset yields the initial `queued` stage, and the persisted snapshots of a
concrete full `processInvoice` run (finalization save included) carry the
stage results and agree with the finished job on them. -/
theorem stage_checkpoint_discipline_witness :
    saveLabels (runStages envOk [claimUpdate 1000 jobA] (claimUpdate 1000 jobA)).trace =
      stageOrder ∧
    effectsCovered [] (runStages envOk [claimUpdate 1000 jobA] (claimUpdate 1000 jobA)).trace
      = true ∧
    (handleFailure (claimUpdate 1000 jobA) "boom").status = .queued ∧
    savesCarryResults (processInvoice envOk 1000 [jobA]).trace = true ∧
    (∃ invF, (processInvoice envOk 1000 [jobA]).outcome = .ok (some invF) ∧
      allSnapAgree invF (processInvoice envOk 1000 [jobA]).trace) := by
  obtain ⟨invF, hF⟩ : ∃ invF,
      (processInvoice envOk 1000 [jobA]).outcome = .ok (some invF) := ⟨_, rfl⟩
  refine ⟨?_, ?_, ?_, ?_, invF, hF, ?_⟩
  · exact (stage_checkpoint_discipline envOk [claimUpdate 1000 jobA]
      (claimUpdate 1000 jobA)).2.1 _ _ _ rfl
  · exact (stage_checkpoint_discipline envOk [claimUpdate 1000 jobA]
      (claimUpdate 1000 jobA)).2.2.1
  · exact ((stage_checkpoint_discipline envOk [claimUpdate 1000 jobA]
      (claimUpdate 1000 jobA)).2.2.2.2.1 (claimUpdate 1000 jobA) "boom" (by decide)).1
  · exact (stage_checkpoint_discipline envOk [jobA] jobA).2.2.2.2.2.2.1 1000
  · exact (stage_checkpoint_discipline envOk [jobA] jobA).2.2.2.2.2.2.2 1000 invF hF

/-! ## Claim C3: bounded retry policy -/

/-- **C3**: on any pipeline error the policy increments
`processing.attempts` and records the error text; at
`attempts ≥ MAX_RETRY_ATTEMPTS` it parks the job as `failed`/`failed`,
otherwise it resets it to `queued`/`queued` with the lease cleared; the
updated record is persisted and the original error re-raised.  A job
failing three times ends `failed` with `attempts = 3`; failing twice then
succeeding ends `processed`. -/
theorem retry_policy_spec :
    (∀ inv e,
      (handleFailure inv e).processing.attempts = inv.processing.attempts + 1 ∧
      (handleFailure inv e).processing.lastError = some e ∧
      (MAX_RETRY_ATTEMPTS ≤ inv.processing.attempts + 1 →
        (handleFailure inv e).status = .failed ∧
        (handleFailure inv e).processing.stage = "failed") ∧
      (inv.processing.attempts + 1 < MAX_RETRY_ATTEMPTS →
        (handleFailure inv e).status = .queued ∧
        (handleFailure inv e).processing.stage = "queued" ∧
        (handleFailure inv e).processing.lockedAt = none)) ∧
    (∀ env now st st1 inv e invE stE tr,
      acquireAndLockInvoice now st = (some inv, st1) →
      runStages env st1 inv = ⟨.error (e, invE), stE, tr⟩ →
      (processInvoice env now st).outcome = .error e ∧
      (processInvoice env now st).store = saveInvoice (handleFailure invE e) stE ∧
      lastSave (processInvoice env now st).trace = some (handleFailure invE e)) ∧
    ((runWorker [envFail, envFail, envFail] 10000000 [jobA]).map
        (fun j => (j.status, j.processing.attempts)) = [(.failed, 3)]) ∧
    ((runWorker [envFail, envFail, envOk] 10000000 [jobA]).map
        (fun j => (j.status, j.processing.attempts)) = [(.processed, 2)]) := by
  refine ⟨?_, ?_, ?_, ?_⟩
  · intro inv e
    refine ⟨?_, ?_, ?_, ?_⟩
    · unfold handleFailure
      dsimp only
      split <;> rfl
    · unfold handleFailure
      dsimp only
      split <;> rfl
    · intro h
      unfold handleFailure
      dsimp only
      split
      · exact ⟨rfl, rfl⟩
      · rename_i hcond
        exact absurd h hcond
    · intro h
      unfold handleFailure
      dsimp only
      split
      · rename_i hcond
        exact absurd hcond (by omega)
      · exact ⟨rfl, rfl, rfl⟩
  · intro env now st st1 inv e invE stE tr hacq hrun
    rw [processInvoice_some hacq, hrun, afterStages_error]
    exact ⟨rfl, rfl, lastSave_append_save tr (handleFailure invE e)⟩
  · rfl
  · rfl

/-- Witness for C3: a concrete failing run satisfies the propagation
conjunct with all hypotheses discharged by computation. -/
theorem retry_policy_spec_witness :
    (processInvoice envFail 10000000 [jobA]).outcome = .error "boom" ∧
    (processInvoice envFail 10000000 [jobA]).store =
      saveInvoice (handleFailure (setStage (claimUpdate 10000000 jobA) "downloading") "boom")
        (saveInvoice (setStage (claimUpdate 10000000 jobA) "downloading")
          [claimUpdate 10000000 jobA]) ∧
    lastSave (processInvoice envFail 10000000 [jobA]).trace =
      some (handleFailure (setStage (claimUpdate 10000000 jobA) "downloading") "boom") :=
  retry_policy_spec.2.1 envFail 10000000 [jobA] [claimUpdate 10000000 jobA]
    (claimUpdate 10000000 jobA) "boom" (setStage (claimUpdate 10000000 jobA) "downloading")
    (saveInvoice (setStage (claimUpdate 10000000 jobA) "downloading")
      [claimUpdate 10000000 jobA])
    [.save (setStage (claimUpdate 10000000 jobA) "downloading"), .effect "downloading"]
    rfl rfl

/-! ## Helpers shared by the duplicate-detection claims -/

theorem handleFailure_id (inv : Invoice) (e : String) :
    (handleFailure inv e).id = inv.id := by
  unfold handleFailure
  dsimp only
  split <;> rfl

theorem handleFailure_hashSha256 (inv : Invoice) (e : String) :
    (handleFailure inv e).hashSha256 = inv.hashSha256 := by
  unfold handleFailure
  dsimp only
  split <;> rfl

theorem handleFailure_attempts (inv : Invoice) (e : String) :
    (handleFailure inv e).processing.attempts = inv.processing.attempts + 1 := by
  unfold handleFailure
  dsimp only
  split <;> rfl

theorem handleFailure_lastError (inv : Invoice) (e : String) :
    (handleFailure inv e).processing.lastError = some e := by
  unfold handleFailure
  dsimp only
  split <;> rfl

theorem handleFailure_requeue (inv : Invoice) (e : String)
    (h : inv.processing.attempts + 1 < MAX_RETRY_ATTEMPTS) :
    (handleFailure inv e).status = .queued ∧
    (handleFailure inv e).processing.stage = "queued" ∧
    (handleFailure inv e).processing.lockedAt = none := by
  unfold handleFailure
  dsimp only
  split
  · rename_i hcond
    exact absurd hcond (by omega)
  · exact ⟨rfl, rfl, rfl⟩

theorem saveInvoice_mem_ne {a b : Invoice} {st : List Invoice}
    (ha : a ∈ st) (hid : a.id ≠ b.id) : a ∈ saveInvoice b st := by
  have hfa : (fun j => if j.id = b.id then b else j) a = a := by
    show (if a.id = b.id then b else a) = a
    rw [if_neg hid]
  have hm := List.mem_map_of_mem (fun j => if j.id = b.id then b else j) ha
  rwa [hfa] at hm

theorem saveInvoice_mem_self {a b : Invoice} {st : List Invoice}
    (ha : a ∈ st) (hid : b.id = a.id) : b ∈ saveInvoice b st := by
  have hfa : (fun j => if j.id = b.id then b else j) a = b := by
    show (if a.id = b.id then b else a) = b
    rw [if_pos hid.symm]
  have hm := List.mem_map_of_mem (fun j => if j.id = b.id then b else j) ha
  rwa [hfa] at hm

theorem mem_set_self {l : List Invoice} {i : Nat} (h : i < l.length) (a : Invoice) :
    a ∈ l.set i a := by
  induction l generalizing i with
  | nil => simp at h
  | cons x xs ih =>
      cases i with
      | zero => simp [List.set]
      | succ n =>
          simp only [List.set_cons_succ]
          exact List.mem_cons_of_mem _ (ih (by simpa using h))

theorem acquire_some_mem {now : Nat} {st st1 : List Invoice} {inv : Invoice}
    (h : acquireAndLockInvoice now st = (some inv, st1)) : inv ∈ st1 := by
  unfold acquireAndLockInvoice at h
  cases hfind : findOldestEligible (unlockStuckInvoices now st) with
  | none => rw [hfind] at h; simp at h
  | some i =>
      rw [hfind] at h
      have h2 : (match (unlockStuckInvoices now st)[i]? with
          | none => ((none : Option Invoice), unlockStuckInvoices now st)
          | some inv0 =>
              (some (claimUpdate now inv0),
                (unlockStuckInvoices now st).set i (claimUpdate now inv0))) =
          (some inv, st1) := h
      cases hget : (unlockStuckInvoices now st)[i]? with
      | none => rw [hget] at h2; simp at h2
      | some inv0 =>
          rw [hget] at h2
          simp only [Prod.mk.injEq, Option.some.injEq] at h2
          obtain ⟨hinv, hst1⟩ := h2
          have hlt : i < (unlockStuckInvoices now st).length := by
            rcases List.getElem?_eq_some.mp hget with ⟨hl, _⟩
            exact hl
          rw [← hst1, ← hinv]
          exact mem_set_self hlt _

/-- Evaluation of the stage pipeline up to the stage-2 duplicate failure:
given a successful download and a duplicate hit, the run throws
`Duplicate invoice detected: <id>` with the hash already written on the
in-memory invoice. -/
theorem runStages_duplicate {env : Env} {st : List Invoice} {inv : Invoice}
    {fid : String} {dl : DownloadResult} {d : Invoice}
    (hfid : inv.driveFileId = some fid)
    (hdl : env.download fid = .ok dl)
    (hdup : findDuplicate
        (saveInvoice (setStage (setStage inv "downloading") "hashing")
          (saveInvoice (setStage inv "downloading") st))
        (env.sha256Hex dl.buffer)
        (setStage (setStage inv "downloading") "hashing").id = some d) :
    runStages env st inv =
      ⟨.error ("Duplicate invoice detected: " ++ toString d.id,
          { setStage (setStage inv "downloading") "hashing" with
              hashSha256 := some (env.sha256Hex dl.buffer) }),
        saveInvoice (setStage (setStage inv "downloading") "hashing")
          (saveInvoice (setStage inv "downloading") st),
        [.save (setStage inv "downloading"), .effect "downloading",
         .save (setStage (setStage inv "downloading") "hashing"), .effect "hashing"]⟩ := by
  obtain ⟨r, hr⟩ : ∃ r, runStages env st inv = r := ⟨_, rfl⟩
  rw [hr]
  unfold runStages at hr
  dsimp only at hr
  repeat' split at hr
  all_goals subst hr
  all_goals first
    | (simp_all [show (setStage inv "downloading").driveFileId = some fid from hfid]
       done)
    | (rename_i a1 s2 hqf a2 dl2 hqd a3 dup2 hqdup
       rw [show (setStage inv "downloading").driveFileId = some fid from hfid] at hqf
       injection hqf with hs
       subst hs
       rw [hdl] at hqd
       injection hqd with hdleq
       subst hdleq
       rw [hdup] at hqdup
       injection hqdup with hdeq
       subst hdeq
       rfl)

/-! ## Claim C6: duplicate detection fails the job through the retry policy -/

/-- **C6**: at stage 2 the hex hash of the downloaded bytes is stored on
the job; a distinct job carrying the same hash makes the stage throw
`Duplicate invoice detected: <other id>`, and the generic retry policy
handles that failure: after a first-attempt duplicate failure the
persisted job has `attempts = 1`, `status = queued`, and the duplicate
message recorded in `lastError`. -/
theorem duplicate_detection_counts_attempt
    (env : Env) (now : Nat) (st st1 : List Invoice) (inv : Invoice)
    (fid : String) (dl : DownloadResult) (j : Invoice)
    (hacq : acquireAndLockInvoice now st = (some inv, st1))
    (hfid : inv.driveFileId = some fid)
    (hdl : env.download fid = .ok dl)
    (hj : j ∈ st1)
    (hjhash : j.hashSha256 = some (env.sha256Hex dl.buffer))
    (hjid : j.id ≠ inv.id)
    (hatt : inv.processing.attempts = 0) :
    ∃ d : Invoice, d.hashSha256 = some (env.sha256Hex dl.buffer) ∧ d.id ≠ inv.id ∧
      (processInvoice env now st).outcome =
        .error ("Duplicate invoice detected: " ++ toString d.id) ∧
      ∃ invE, lastSave (processInvoice env now st).trace = some invE ∧
        invE.hashSha256 = some (env.sha256Hex dl.buffer) ∧
        invE.processing.attempts = 1 ∧
        invE.status = .queued ∧
        invE.processing.stage = "queued" ∧
        invE.processing.lastError =
          some ("Duplicate invoice detected: " ++ toString d.id) := by
  have hj1 : j ∈ saveInvoice (setStage inv "downloading") st1 :=
    saveInvoice_mem_ne hj (show j.id ≠ (setStage inv "downloading").id from hjid)
  have hj2 : j ∈ saveInvoice (setStage (setStage inv "downloading") "hashing")
      (saveInvoice (setStage inv "downloading") st1) :=
    saveInvoice_mem_ne hj1
      (show j.id ≠ (setStage (setStage inv "downloading") "hashing").id from hjid)
  have hpred : duplicateMatch (env.sha256Hex dl.buffer)
      (setStage (setStage inv "downloading") "hashing").id j = true := by
    have hid : (setStage (setStage inv "downloading") "hashing").id = inv.id := rfl
    simp [duplicateMatch, hjhash, hid, hjid]
  have hfound : (findDuplicate
      (saveInvoice (setStage (setStage inv "downloading") "hashing")
        (saveInvoice (setStage inv "downloading") st1))
      (env.sha256Hex dl.buffer)
      (setStage (setStage inv "downloading") "hashing").id).isSome = true := by
    unfold findDuplicate
    rw [List.find?_isSome]
    exact ⟨j, hj2, hpred⟩
  obtain ⟨d, hd⟩ := Option.isSome_iff_exists.mp hfound
  have hdmatch : duplicateMatch (env.sha256Hex dl.buffer)
      (setStage (setStage inv "downloading") "hashing").id d = true :=
    List.find?_some hd
  have hdprops : d.hashSha256 = some (env.sha256Hex dl.buffer) ∧ d.id ≠ inv.id := by
    have hid : (setStage (setStage inv "downloading") "hashing").id = inv.id := rfl
    rw [hid] at hdmatch
    simp only [duplicateMatch, Bool.and_eq_true, decide_eq_true_eq, Bool.not_eq_true',
      decide_eq_false_iff_not] at hdmatch
    exact hdmatch
  have hrun := runStages_duplicate hfid hdl hd
  refine ⟨d, hdprops.1, hdprops.2, ?_, ?_⟩
  · rw [processInvoice_some hacq, hrun, afterStages_error]
  · rw [processInvoice_some hacq, hrun, afterStages_error]
    refine ⟨_, lastSave_append_save _ _, ?_, ?_, ?_, ?_, ?_⟩
    · rw [handleFailure_hashSha256]
    · rw [handleFailure_attempts]
      have : (setStage (setStage inv "downloading") "hashing").processing.attempts =
          inv.processing.attempts := rfl
      simp [this, hatt]
    · exact (handleFailure_requeue _ _ (by
        have : ({ setStage (setStage inv "downloading") "hashing" with
            hashSha256 := some (env.sha256Hex dl.buffer) } :
            Invoice).processing.attempts = inv.processing.attempts := rfl
        rw [this, hatt]
        decide)).1
    · exact (handleFailure_requeue _ _ (by
        have : ({ setStage (setStage inv "downloading") "hashing" with
            hashSha256 := some (env.sha256Hex dl.buffer) } :
            Invoice).processing.attempts = inv.processing.attempts := rfl
        rw [this, hatt]
        decide)).2.1
    · rw [handleFailure_lastError]

/-- Witness for C6: claiming `jobA` against a store that already holds the
processed `jobDup` with the same content hash produces the duplicate
failure and requeues the job with one attempt consumed. -/
theorem duplicate_detection_counts_attempt_witness :
    ∃ d : Invoice, d.hashSha256 = some "hashH" ∧ d.id ≠ 1 ∧
      (processInvoice envOk 1000 [jobA, jobDup]).outcome =
        .error ("Duplicate invoice detected: " ++ toString d.id) ∧
      ∃ invE, lastSave (processInvoice envOk 1000 [jobA, jobDup]).trace = some invE ∧
        invE.hashSha256 = some "hashH" ∧
        invE.processing.attempts = 1 ∧
        invE.status = .queued ∧
        invE.processing.stage = "queued" ∧
        invE.processing.lastError =
          some ("Duplicate invoice detected: " ++ toString d.id) :=
  duplicate_detection_counts_attempt envOk 1000 [jobA, jobDup]
    [claimUpdate 1000 jobA, jobDup] (claimUpdate 1000 jobA) "fileA"
    ⟨[1, 2, 3], "application/pdf", "invoice.pdf"⟩ jobDup
    rfl rfl rfl (List.mem_cons_of_mem _ (List.mem_cons_self _ _)) rfl (by decide) rfl

/-! ## Claim C10: the duplicate lookup ignores status, and duplicate pairs
become mutually detectable -/

theorem findDuplicate_isSome_of_mem {st : List Invoice} {hash : String} {selfId : Nat}
    {j : Invoice} (hj : j ∈ st) (hjh : j.hashSha256 = some hash)
    (hjid : j.id ≠ selfId) : (findDuplicate st hash selfId).isSome = true := by
  unfold findDuplicate
  rw [List.find?_isSome]
  exact ⟨j, hj, by simp [duplicateMatch, hjh, hjid]⟩

/-- **C10**: the stage-2 duplicate lookup places no restriction on the
other job's status — the match predicate is invariant under changing it —
and because the computed hash is written to the current job before the
check and persisted by the failure handler, after one duplicate failure
the final store holds both jobs with the same hash and the lookup flags
each as a duplicate of the other. -/
theorem duplicate_lookup_status_blind :
    (∀ (hash : String) (selfId : Nat) (j : Invoice) (s : InvoiceStatus),
      duplicateMatch hash selfId { j with status := s } = duplicateMatch hash selfId j) ∧
    (∀ (env : Env) (now : Nat) (st st1 : List Invoice) (inv : Invoice)
      (fid : String) (dl : DownloadResult) (j : Invoice),
      acquireAndLockInvoice now st = (some inv, st1) →
      inv.driveFileId = some fid →
      env.download fid = .ok dl →
      j ∈ st1 →
      j.hashSha256 = some (env.sha256Hex dl.buffer) →
      j.id ≠ inv.id →
      ∃ d : Invoice,
        (processInvoice env now st).outcome =
          .error ("Duplicate invoice detected: " ++ toString d.id) ∧
        ∃ self : Invoice, self ∈ (processInvoice env now st).store ∧
          self.id = inv.id ∧
          self.hashSha256 = some (env.sha256Hex dl.buffer) ∧
          (findDuplicate (processInvoice env now st).store
            (env.sha256Hex dl.buffer) self.id).isSome = true ∧
          (findDuplicate (processInvoice env now st).store
            (env.sha256Hex dl.buffer) j.id).isSome = true) := by
  constructor
  · intro hash selfId j s
    rfl
  · intro env now st st1 inv fid dl j hacq hfid hdl hj hjhash hjid
    have hj1 : j ∈ saveInvoice (setStage inv "downloading") st1 :=
      saveInvoice_mem_ne hj (show j.id ≠ (setStage inv "downloading").id from hjid)
    have hj2 : j ∈ saveInvoice (setStage (setStage inv "downloading") "hashing")
        (saveInvoice (setStage inv "downloading") st1) :=
      saveInvoice_mem_ne hj1
        (show j.id ≠ (setStage (setStage inv "downloading") "hashing").id from hjid)
    have hfound := findDuplicate_isSome_of_mem hj2 hjhash
      (show j.id ≠ (setStage (setStage inv "downloading") "hashing").id from hjid)
    obtain ⟨d, hd⟩ := Option.isSome_iff_exists.mp hfound
    have hrun := runStages_duplicate hfid hdl hd
    have hinv1 : setStage inv "downloading" ∈
        saveInvoice (setStage inv "downloading") st1 :=
      saveInvoice_mem_self (acquire_some_mem hacq)
        (show (setStage inv "downloading").id = inv.id from rfl)
    have hinv2 : setStage (setStage inv "downloading") "hashing" ∈
        saveInvoice (setStage (setStage inv "downloading") "hashing")
          (saveInvoice (setStage inv "downloading") st1) :=
      saveInvoice_mem_self hinv1 rfl
    refine ⟨d, ?_, ?_⟩
    · rw [processInvoice_some hacq, hrun, afterStages_error]
    · rw [processInvoice_some hacq, hrun, afterStages_error]
      refine ⟨handleFailure
          ({ setStage (setStage inv "downloading") "hashing" with
              hashSha256 := some (env.sha256Hex dl.buffer) })
          ("Duplicate invoice detected: " ++ toString d.id), ?_, ?_, ?_, ?_, ?_⟩
      · exact saveInvoice_mem_self hinv2 (handleFailure_id _ _)
      · exact handleFailure_id _ _
      · exact handleFailure_hashSha256 _ _
      · refine findDuplicate_isSome_of_mem ?_ hjhash ?_
        · exact saveInvoice_mem_ne hj2 (show j.id ≠ _ from by
            rw [handleFailure_id]
            exact hjid)
        · rw [handleFailure_id]
          exact hjid
      · refine findDuplicate_isSome_of_mem
          (saveInvoice_mem_self hinv2 (handleFailure_id _ _))
          (handleFailure_hashSha256 _ _) ?_
        rw [handleFailure_id]
        exact fun hc => hjid (show j.id = inv.id from hc.symm)

/-- Witness for C10 on the concrete duplicate scenario: after the failure
both jobs carry hash `hashH` and each is flagged as a duplicate of the
other. -/
theorem duplicate_lookup_status_blind_witness :
    ∃ d : Invoice,
      (processInvoice envOk 1000 [jobA, jobDup]).outcome =
        .error ("Duplicate invoice detected: " ++ toString d.id) ∧
      ∃ self : Invoice, self ∈ (processInvoice envOk 1000 [jobA, jobDup]).store ∧
        self.id = 1 ∧
        self.hashSha256 = some "hashH" ∧
        (findDuplicate (processInvoice envOk 1000 [jobA, jobDup]).store
          "hashH" self.id).isSome = true ∧
        (findDuplicate (processInvoice envOk 1000 [jobA, jobDup]).store
          "hashH" jobDup.id).isSome = true :=
  duplicate_lookup_status_blind.2 envOk 1000 [jobA, jobDup]
    [claimUpdate 1000 jobA, jobDup] (claimUpdate 1000 jobA) "fileA"
    ⟨[1, 2, 3], "application/pdf", "invoice.pdf"⟩ jobDup
    rfl rfl rfl (List.mem_cons_of_mem _ (List.mem_cons_self _ _)) rfl (by decide)

/-! ## Claim C8: trend analysis (corrected — the mean is over the
positive historical totals only) -/

theorem foldl_add_eq_sum (l : List ℚ) : ∀ a : ℚ, l.foldl (· + ·) a = a + l.sum := by
  induction l with
  | nil => intro a; simp
  | cons x xs ih =>
      intro a
      simp only [List.foldl_cons, List.sum_cons, ih]
      ring

theorem listSum_eq_sum (l : List ℚ) : listSum l = l.sum := by
  unfold listSum
  rw [foldl_add_eq_sum]
  ring

theorem foldl_sq_eq_sum (m : ℚ) (l : List ℚ) : ∀ a : ℚ,
    l.foldl (fun acc t => acc + (t - m) * (t - m)) a =
      a + (l.map (fun t => (t - m) * (t - m))).sum := by
  induction l with
  | nil => intro a; simp
  | cons x xs ih =>
      intro a
      simp only [List.foldl_cons, List.map_cons, List.sum_cons, ih]
      ring

theorem popVariance_eq_spec (l : List ℚ) :
    popVariance l (popMean l) = popVarianceSpec l := by
  unfold popVariance popVarianceSpec
  rw [foldl_sq_eq_sum, zero_add]

theorem positiveTotals_pos {historical : List Invoice} :
    ∀ x ∈ positiveTotals historical, 0 < x := by
  intro x hx
  have h := List.mem_filter.mp hx
  simpa using h.2

theorem popMean_pos {l : List ℚ} (hne : l ≠ []) (hpos : ∀ x ∈ l, 0 < x) :
    0 < popMean l := by
  unfold popMean
  apply div_pos
  · exact List.sum_pos l hpos hne
  · exact_mod_cast List.length_pos.mpr hne

/-- **C8 counterexample**: the claim says that for a non-empty historical
list the analysis returns `priceChange = current total − mean of the
historical totals`.  With one historical invoice whose total is `0`, that
mean is `0` and the claimed `priceChange` would be `50`, but the code
filters out non-positive totals, finds none left, and returns only a note
with `priceChange = none`. -/
theorem trend_mean_counterexample :
    [trendHistZero].isEmpty = false ∧
    totalOrZero trendCur - popMean ([trendHistZero].map totalOrZero) = 50 ∧
    (analyzeTrendsCore [trendHistZero] trendCur).priceChange ≠ some 50 ∧
    (analyzeTrendsCore [trendHistZero] trendCur).priceChange = none := by
  refine ⟨rfl, ?_, ?_, rfl⟩
  · norm_num [popMean, totalOrZero, trendCur, trendHistZero]
  · intro hc
    rw [show (analyzeTrendsCore [trendHistZero] trendCur).priceChange = none from rfl] at hc
    exact Option.noConfusion hc

/-- **C8 (amended)**: for a non-empty historical list whose *positive*
totals are also non-empty, the analysis returns
`priceChange = current total − mean of the positive historical totals`,
the corresponding percentage, the population standard deviation of the
positive totals as volatility, and flags a price anomaly exactly when the
absolute change exceeds 20% of that mean, plus a zero-line-items anomaly;
with no historical invoices, or none with a positive total, it returns
only an explanatory note; and a failed history query yields the safe
fallback note instead of propagating. -/
theorem trend_analysis_amended (historical : List Invoice) (cur : Invoice)
    (h1 : historical.isEmpty = false)
    (h2 : positiveTotals historical ≠ []) :
    (analyzeTrendsCore historical cur =
      { priceChange := some (totalOrZero cur - popMean (positiveTotals historical))
        priceChangePercent := some ((totalOrZero cur - popMean (positiveTotals historical)) /
          popMean (positiveTotals historical) * 100)
        volatility := some (Real.sqrt (popVarianceSpec (positiveTotals historical)))
        anomalies := if (specAnomalies historical cur).isEmpty then none
          else some (specAnomalies historical cur) }) ∧
    (∀ (e : String) (c : Invoice), analyzeTrends (.error e) c =
      { anomalies := some ["Error analyzing trends"] }) ∧
    (∀ c : Invoice, analyzeTrendsCore [] c =
      { anomalies := some ["No historical data available for comparison"] }) ∧
    (∀ (hist : List Invoice) (c : Invoice), hist.isEmpty = false →
      positiveTotals hist = [] →
      analyzeTrendsCore hist c =
        { anomalies := some ["Historical invoices missing total amounts"] }) ∧
    ((specAnomalies historical cur ≠ []) ↔
      (popMean (positiveTotals historical) * (1 / 5) <
          |totalOrZero cur - popMean (positiveTotals historical)| ∨
        cur.lineItems.isEmpty = true)) := by
  have hply : (positiveTotals historical).isEmpty = false := by
    cases hl : positiveTotals historical with
    | nil => exact absurd hl h2
    | cons a as => rfl
  have hposMean : 0 < popMean (positiveTotals historical) :=
    popMean_pos h2 positiveTotals_pos
  refine ⟨?_, fun e c => rfl, fun c => rfl, ?_, ?_⟩
  · unfold analyzeTrendsCore
    rw [h1, if_neg Bool.false_ne_true]
    dsimp only
    rw [show ((historical.map totalOrZero).filter fun q => decide (0 < q)) =
      positiveTotals historical from rfl]
    rw [hply, if_neg Bool.false_ne_true]
    rw [listSum_eq_sum]
    rw [show (positiveTotals historical).sum / ((positiveTotals historical).length : ℚ) =
      popMean (positiveTotals historical) from rfl]
    rw [if_pos hposMean]
    rw [popVariance_eq_spec]
    rfl
  · intro hist c hne hpos0
    unfold analyzeTrendsCore
    rw [hne, if_neg Bool.false_ne_true]
    dsimp only
    rw [show ((hist.map totalOrZero).filter fun q => decide (0 < q)) =
      positiveTotals hist from rfl]
    rw [hpos0]
    rfl
  · unfold specAnomalies
    by_cases hlt : popMean (positiveTotals historical) * (1 / 5) <
        |totalOrZero cur - popMean (positiveTotals historical)|
    · rw [if_pos hlt]
      constructor
      · intro _
        exact Or.inl hlt
      · intro _
        simp
    · rw [if_neg hlt]
      cases hle : cur.lineItems.isEmpty with
      | false =>
          rw [if_neg Bool.false_ne_true]
          constructor
          · intro h
            exact absurd rfl h
          · intro h
            rcases h with h | h
            · exact absurd h hlt
            · exact Bool.noConfusion h
      | true =>
          rw [if_pos rfl]
          constructor
          · intro _
            exact Or.inr rfl
          · intro _
            simp

/-- Witness for the amended C8 at one positive historical total (100)
against a current total of 50. -/
theorem trend_analysis_amended_witness :
    (analyzeTrendsCore [trendHist] trendCur =
      { priceChange := some (totalOrZero trendCur - popMean (positiveTotals [trendHist]))
        priceChangePercent := some ((totalOrZero trendCur - popMean (positiveTotals [trendHist])) /
          popMean (positiveTotals [trendHist]) * 100)
        volatility := some (Real.sqrt (popVarianceSpec (positiveTotals [trendHist])))
        anomalies := if (specAnomalies [trendHist] trendCur).isEmpty then none
          else some (specAnomalies [trendHist] trendCur) }) ∧
    (∀ (e : String) (c : Invoice), analyzeTrends (.error e) c =
      { anomalies := some ["Error analyzing trends"] }) ∧
    (∀ c : Invoice, analyzeTrendsCore [] c =
      { anomalies := some ["No historical data available for comparison"] }) ∧
    (∀ (hist : List Invoice) (c : Invoice), hist.isEmpty = false →
      positiveTotals hist = [] →
      analyzeTrendsCore hist c =
        { anomalies := some ["Historical invoices missing total amounts"] }) ∧
    ((specAnomalies [trendHist] trendCur ≠ []) ↔
      (popMean (positiveTotals [trendHist]) * (1 / 5) <
          |totalOrZero trendCur - popMean (positiveTotals [trendHist])| ∨
        trendCur.lineItems.isEmpty = true)) :=
  trend_analysis_amended [trendHist] trendCur rfl (by decide)

end Olive
